import Mathlib

/-!
Verification of the dynarmic translation-and-emission pipeline fragments:
the x64 vector floating-point emitter (`emit_x64_vector_floating_point.cpp`),
the Thumb frontend translator (`translate_thumb.cpp`), and the
A32 constant-memory-reads / dead-C-flag optimization pass
(`a32_constant_memory_reads_pass.cpp`).

All SIMD registers are modelled lane-wise: a 128-bit xmm register holds four
32-bit lanes or two 64-bit lanes, and every instruction that the emitter uses
(`andps`, `orps`, `xorps`, `cmpordps`, `cmpunordps`, `maxps`, `minps`,
`blendv`, ...) acts independently on lanes, so each emitted sequence is
embedded as a function on a single lane's bit pattern (a `Nat` below the
width bound).  An IEEE binary float format is described by its exponent
width `eb` and mantissa width `mb` (binary32: eb = 8, mb = 23;
binary64: eb = 11, mb = 52).
-/

/-- All-ones bit pattern of width `w`. -/
def onesF (w : Nat) : Nat := 2 ^ w - 1

/-- A bit pattern `x` is a NaN of the (eb, mb) format iff its exponent field
is all ones and its mantissa field is nonzero. -/
def isNaNF (eb mb : Nat) (x : Nat) : Bool :=
  decide (((x >>> mb) &&& onesF eb) = onesF eb) && decide ((x &&& onesF mb) ≠ 0)

/-- `isNaNF` for binary32. -/
abbrev isNaN32 (x : Nat) : Bool := isNaNF 8 23 x

/-- `isNaNF` for binary64. -/
abbrev isNaN64 (x : Nat) : Bool := isNaNF 11 52 x

/-- The canonical default NaN broadcast by the emitter for 32-bit lanes
(`0x7fc0'0000'7fc0'0000` halves of the `MConst`). -/
def defaultNaN32 : Nat := 0x7FC00000

/-- The canonical default NaN broadcast by the emitter for 64-bit lanes
(`0x7ff8'0000'0000'0000` halves of the `MConst`). -/
def defaultNaN64 : Nat := 0x7FF8000000000000

/-- One lane of `cmpordps`/`cmpordpd`: all-ones iff both operands are
ordered (neither is NaN), else zero. -/
def cmpordLane (eb mb : Nat) (x y : Nat) : Nat :=
  if !isNaNF eb mb x && !isNaNF eb mb y then onesF (1 + eb + mb) else 0

/-- One lane of `cmpunordps`/`cmpunordpd`: all-ones iff the operands are
unordered (at least one is NaN), else zero. -/
def cmpunordLane (eb mb : Nat) (x y : Nat) : Nat :=
  if isNaNF eb mb x || isNaNF eb mb y then onesF (1 + eb + mb) else 0

/-- The default-NaN post-processing sequence of
`EmitThreeOpVectorOperation` / `EmitFourOpVectorOperation` (DN-mode fast
path), per lane.  `r` is the lane produced by the x86 SIMD op (held in
`xmm_a` after `fn` ran), `dn` the broadcast default-NaN constant:

    pcmpeqw tmp, tmp            ; tmp = all-ones
    movaps  nan_mask, xmm_a
    cmpordp nan_mask, nan_mask  ; ordered(r, r) mask
    andps   xmm_a, nan_mask
    xorps   nan_mask, tmp
    andps   nan_mask, MConst(dn)
    orps    xmm_a, nan_mask
-/
def dnFixupLane (eb mb : Nat) (dn : Nat) (r : Nat) : Nat :=
  let w := 1 + eb + mb
  let tmp := onesF w
  let nan_mask := cmpordLane eb mb r r
  let a := r &&& nan_mask
  let nan_mask := nan_mask ^^^ tmp
  let nan_mask := nan_mask &&& dn
  a ||| nan_mask

section BitHelpers

theorem testBit_onesF (w i : Nat) : (onesF w).testBit i = decide (i < w) := by
  simp [onesF, Nat.testBit_two_pow_sub_one]

theorem land_onesF {w x : Nat} (h : x < 2 ^ w) : x &&& onesF w = x := by
  apply Nat.eq_of_testBit_eq
  intro i
  rw [Nat.testBit_and, testBit_onesF]
  by_cases hi : i < w
  · simp [hi]
  · have hx : x.testBit i = false :=
      Nat.testBit_lt_two_pow (lt_of_lt_of_le h (Nat.pow_le_pow_right (by norm_num) (Nat.le_of_not_lt hi)))
    simp [hi, hx]

theorem onesF_land {w x : Nat} (h : x < 2 ^ w) : onesF w &&& x = x := by
  rw [Nat.land_comm]; exact land_onesF h

end BitHelpers

/-- C4 helper: the DN fixup lane equals default-NaN on NaN lanes and the raw
x86 lane elsewhere. -/
theorem dnFixupLane_eq {eb mb : Nat} (dn : Nat) (hdn : dn < 2 ^ (1 + eb + mb))
    (r : Nat) (hr : r < 2 ^ (1 + eb + mb)) :
    dnFixupLane eb mb dn r = if isNaNF eb mb r then dn else r := by
  unfold dnFixupLane cmpordLane
  cases h : isNaNF eb mb r with
  | true => simp [h, onesF_land hdn]
  | false => simp [h, land_onesF hr]

/-- C4: for every vector FP operation emitted with FPSCR.DN set, the fast
path of `EmitThreeOpVectorOperation`/`EmitFourOpVectorOperation` post-processes
the x86 SIMD result so that every NaN lane becomes the canonical default-NaN
pattern (0x7FC00000 for 32-bit lanes, 0x7FF8000000000000 for 64-bit lanes)
and every non-NaN lane is exactly the lane the x86 SIMD op produced. -/
theorem dn_mode_default_nan
    : (∀ r : Nat, r < 2 ^ 32 →
        dnFixupLane 8 23 defaultNaN32 r = if isNaN32 r then defaultNaN32 else r)
    ∧ (∀ r : Nat, r < 2 ^ 64 →
        dnFixupLane 11 52 defaultNaN64 r = if isNaN64 r then defaultNaN64 else r) := by
  constructor
  · intro r hr
    exact dnFixupLane_eq defaultNaN32 (by norm_num [defaultNaN32]) r hr
  · intro r hr
    exact dnFixupLane_eq defaultNaN64 (by norm_num [defaultNaN64]) r hr

/-- C4 witness: the DN fixup at the concrete NaN lane 0x7FC00001 produces the
default NaN, and at the clean lane 0x3F800000 (1.0f) leaves it unchanged. -/
theorem dn_mode_default_nan_witness :
    dnFixupLane 8 23 defaultNaN32 0x7FC00001 = defaultNaN32
    ∧ dnFixupLane 11 52 defaultNaN64 0x3FF0000000000000 = 0x3FF0000000000000 := by
  constructor
  · rw [dn_mode_default_nan.1 0x7FC00001 (by norm_num)]
    decide
  · rw [dn_mode_default_nan.2 0x3FF0000000000000 (by norm_num)]
    decide

/-! ## Accurate-NaN propagation (`NaNHandler`, `EmitThreeOpVectorOperation`) -/

/-- Modelled from the spec: `FP::FPProcessNaN` (common/fp/op.h, not under
src/) quiets a NaN by setting the most significant mantissa bit. -/
def quietF (_eb mb : Nat) (x : Nat) : Nat := x ||| 2 ^ (mb - 1)

/-- Modelled from the spec: `FP::ProcessNaNs(a, b)` (common/fp/util.h, not
under src/) returns the first NaN of the inputs in operand order, quieted,
and nothing when neither input is a NaN. -/
def processNaNsF (eb mb : Nat) (a b : Nat) : Option Nat :=
  if isNaNF eb mb a then some (quietF eb mb a)
  else if isNaNF eb mb b then some (quietF eb mb b)
  else none

/-- Modelled from the spec: `FP::FPInfo<FPT>::DefaultNaN()` (common/fp/info.h,
not under src/) is `0x7FC00000` for binary32 and `0x7FF8000000000000` for
binary64: exponent all ones plus the quiet bit. -/
def defaultNaNF (eb mb : Nat) : Nat := (onesF eb <<< mb) ||| 2 ^ (mb - 1)

/-- The per-lane body of `NaNHandler<fsize, DefaultIndexer, 3>::GetDefault()`:
`r` is the result lane produced by the x86 op, `a`/`b` the input lanes.
If `ProcessNaNs` yields a value it becomes the lane; otherwise a NaN result
lane becomes the default NaN; otherwise the lane is untouched. -/
def nanHandlerLaneF (eb mb : Nat) (r a b : Nat) : Nat :=
  match processNaNsF eb mb a b with
  | some v => v
  | none => if isNaNF eb mb r then defaultNaNF eb mb else r

/-- The accurate-NaN (`AccurateNaN() && !FPSCR_DN()`) path of
`EmitThreeOpVectorOperation` on an `n`-lane vector:

    movaps    nan_mask, xmm_b
    movaps    result, xmm_a
    cmpunordp nan_mask, xmm_a
    fn        result, xmm_b
    cmpunordp nan_mask, result
    HandleNaNs {result, xmm_a, xmm_b} nan_mask   ; calls the NaN handler on
                                                 ; all lanes iff nan_mask ≠ 0

`op` is the per-lane action of the x86 SIMD instruction `fn`. -/
def accurateThreeOpVec (eb mb n : Nat) (op : Nat → Nat → Nat)
    (a b : Fin n → Nat) : Fin n → Nat :=
  let result := fun i => op (a i) (b i)
  let mask1 := fun i => cmpunordLane eb mb (b i) (a i)
  let mask2 := fun i => cmpunordLane eb mb (mask1 i) (result i)
  if ∃ i, mask2 i ≠ 0 then
    fun i => nanHandlerLaneF eb mb (result i) (a i) (b i)
  else result

theorem onesF_ne_zero (eb mb : Nat) : onesF (1 + eb + mb) ≠ 0 := by
  unfold onesF
  have h : 2 ^ 1 ≤ 2 ^ (1 + eb + mb) := Nat.pow_le_pow_right (by norm_num) (by omega)
  omega

theorem cmpunordLane_eq_zero (eb mb x y : Nat) :
    cmpunordLane eb mb x y = 0 ↔
      (isNaNF eb mb x = false ∧ isNaNF eb mb y = false) := by
  unfold cmpunordLane
  cases hx : isNaNF eb mb x <;> cases hy : isNaNF eb mb y <;>
    simp [hx, hy, onesF_ne_zero eb mb]

/-- The accurate path always computes, lane-wise, exactly the NaN handler
applied to (x86 result, input a, input b); the no-NaN branch that skips the
far-code fixup agrees with the handler because the handler is the identity
on clean lanes. -/
theorem accurateThreeOpVec_lane {eb mb : Nat}
    (hones : isNaNF eb mb (onesF (1 + eb + mb)) = true)
    (n : Nat) (op : Nat → Nat → Nat) (a b : Fin n → Nat) (i : Fin n) :
    accurateThreeOpVec eb mb n op a b i
      = nanHandlerLaneF eb mb (op (a i) (b i)) (a i) (b i) := by
  unfold accurateThreeOpVec
  by_cases hm : ∃ j : Fin n,
      cmpunordLane eb mb (cmpunordLane eb mb (b j) (a j)) (op (a j) (b j)) ≠ 0
  · simp only [hm, if_true]
  · simp only [hm, if_false]
    push_neg at hm
    have h2 := (cmpunordLane_eq_zero eb mb _ _).mp (hm i)
    have hab : isNaNF eb mb (a i) = false ∧ isNaNF eb mb (b i) = false := by
      by_contra hcon
      have : cmpunordLane eb mb (b i) (a i) = onesF (1 + eb + mb) := by
        unfold cmpunordLane
        cases ha : isNaNF eb mb (a i) <;> cases hb : isNaNF eb mb (b i) <;>
          simp [ha, hb] at hcon ⊢
      rw [this, hones] at h2
      simp at h2
    unfold nanHandlerLaneF processNaNsF
    simp [hab.1, hab.2, h2.2]

/-- C3: on the accurate-NaN (DN-off) path of every two-input vector FP
operation, a result lane with at least one NaN input equals the first NaN of
the inputs in operand order, quieted; a lane with clean inputs whose x86
result is NaN becomes the default NaN; and a fully clean lane is exactly the
x86 result.  Stated for binary32 (4 lanes) and binary64 (2 lanes). -/
theorem accurate_nan_propagation :
    (∀ (op : Nat → Nat → Nat) (a b : Fin 4 → Nat) (i : Fin 4),
        (isNaN32 (a i) = true →
          accurateThreeOpVec 8 23 4 op a b i = quietF 8 23 (a i))
      ∧ (isNaN32 (a i) = false → isNaN32 (b i) = true →
          accurateThreeOpVec 8 23 4 op a b i = quietF 8 23 (b i))
      ∧ (isNaN32 (a i) = false → isNaN32 (b i) = false →
          isNaN32 (op (a i) (b i)) = true →
          accurateThreeOpVec 8 23 4 op a b i = defaultNaNF 8 23)
      ∧ (isNaN32 (a i) = false → isNaN32 (b i) = false →
          isNaN32 (op (a i) (b i)) = false →
          accurateThreeOpVec 8 23 4 op a b i = op (a i) (b i)))
    ∧ (∀ (op : Nat → Nat → Nat) (a b : Fin 2 → Nat) (i : Fin 2),
        (isNaN64 (a i) = true →
          accurateThreeOpVec 11 52 2 op a b i = quietF 11 52 (a i))
      ∧ (isNaN64 (a i) = false → isNaN64 (b i) = true →
          accurateThreeOpVec 11 52 2 op a b i = quietF 11 52 (b i))
      ∧ (isNaN64 (a i) = false → isNaN64 (b i) = false →
          isNaN64 (op (a i) (b i)) = true →
          accurateThreeOpVec 11 52 2 op a b i = defaultNaNF 11 52)
      ∧ (isNaN64 (a i) = false → isNaN64 (b i) = false →
          isNaN64 (op (a i) (b i)) = false →
          accurateThreeOpVec 11 52 2 op a b i = op (a i) (b i))) := by
  constructor
  · intro op a b i
    have h := @accurateThreeOpVec_lane 8 23 (by decide) 4 op a b i
    refine ⟨?_, ?_, ?_, ?_⟩ <;> rw [h] <;> unfold nanHandlerLaneF processNaNsF <;>
      intros <;> simp_all
  · intro op a b i
    have h := @accurateThreeOpVec_lane 11 52 (by decide) 2 op a b i
    refine ⟨?_, ?_, ?_, ?_⟩ <;> rw [h] <;> unfold nanHandlerLaneF processNaNsF <;>
      intros <;> simp_all

/-- C3 witness: the spec's `FADD.F32` scenario lanes.  Lane 1 propagates the
quiet NaN from the first operand; lane 2 quiets the signalling NaN of the
second operand; lane 0 is clean. -/
theorem accurate_nan_propagation_witness :
    isNaN32 0x7FC00001 = true
    ∧ accurateThreeOpVec 8 23 4 (fun x y => x + y)
        (fun i => [0x3F800000, 0x7FC00001, 0x40000000, 0x7FC00002].getD i.val 0)
        (fun i => [0x40400000, 0x40800000, 0x7F800001, 0x7FC00003].getD i.val 0)
        ⟨1, by norm_num⟩ = quietF 8 23 0x7FC00001
    ∧ accurateThreeOpVec 8 23 4 (fun x y => x + y)
        (fun i => [0x3F800000, 0x7FC00001, 0x40000000, 0x7FC00002].getD i.val 0)
        (fun i => [0x40400000, 0x40800000, 0x7F800001, 0x7FC00003].getD i.val 0)
        ⟨2, by norm_num⟩ = quietF 8 23 0x7F800001 := by
  refine ⟨by decide, ?_, ?_⟩
  · exact ((accurate_nan_propagation.1 (fun x y => x + y)
      (fun i => [0x3F800000, 0x7FC00001, 0x40000000, 0x7FC00002].getD i.val 0)
      (fun i => [0x40400000, 0x40800000, 0x7F800001, 0x7FC00003].getD i.val 0)
      ⟨1, by norm_num⟩).1 (by decide))
  · exact ((accurate_nan_propagation.1 (fun x y => x + y)
      (fun i => [0x3F800000, 0x7FC00001, 0x40000000, 0x7FC00002].getD i.val 0)
      (fun i => [0x40400000, 0x40800000, 0x7F800001, 0x7FC00003].getD i.val 0)
      ⟨2, by norm_num⟩).2.1 (by decide) (by decide))

/-! ## Vector FP min/max (`EmitFPVectorMax`, `EmitFPVectorMin`) -/

/-- Numeric interpretation of a non-NaN IEEE bit pattern of width `w` for
comparison purposes only: sign-magnitude to a signed integer.  IEEE ordering
of non-NaN values agrees with this order, and +0 and −0 both map to 0. -/
def toOrderedIntF (w x : Nat) : Int :=
  if x.testBit (w - 1) then -((x &&& onesF (w - 1) : Nat) : Int)
  else ((x &&& onesF (w - 1) : Nat) : Int)

/-- One lane of x86 `cmpeqps`/`cmpeqpd` (predicate EQ_OQ) as a Bool: ordered
and numerically equal.  Distinct bit patterns compare equal only for ±0. -/
def x86eqF (eb mb : Nat) (x y : Nat) : Bool :=
  !isNaNF eb mb x && !isNaNF eb mb y
    && decide (toOrderedIntF (1 + eb + mb) x = toOrderedIntF (1 + eb + mb) y)

/-- One lane of x86 `maxps`/`maxpd`: `max(a, b)` returns the second operand
when either input is a NaN or the inputs compare equal, else the numeric
maximum. -/
def x86maxLaneF (eb mb : Nat) (a b : Nat) : Nat :=
  if isNaNF eb mb a || isNaNF eb mb b then b
  else if toOrderedIntF (1 + eb + mb) b < toOrderedIntF (1 + eb + mb) a then a
  else b

/-- One lane of x86 `minps`/`minpd`: `min(a, b)` returns the second operand
when either input is a NaN or the inputs compare equal, else the numeric
minimum. -/
def x86minLaneF (eb mb : Nat) (a b : Nat) : Nat :=
  if isNaNF eb mb a || isNaNF eb mb b then b
  else if toOrderedIntF (1 + eb + mb) a < toOrderedIntF (1 + eb + mb) b then a
  else b

/-- The non-AVX lane sequence of `EmitFPVectorMax` (result starts as lane `a`):

    movaps  mask, result
    movaps  anded, result
    cmpneqp mask, xmm_b       ; NEQ_UQ: true on unordered or not-equal
    andps   anded, xmm_b
    maxp    result, xmm_b
    andps   result, mask
    andnps  mask, anded
    orps    result, mask
-/
def maxLaneSSE (eb mb : Nat) (a b : Nat) : Nat :=
  let w := 1 + eb + mb
  let mask := if x86eqF eb mb a b then 0 else onesF w
  let anded := a &&& b
  let result := x86maxLaneF eb mb a b
  let result := result &&& mask
  let mask := (mask ^^^ onesF w) &&& anded
  result ||| mask

/-- The non-AVX lane sequence of `EmitFPVectorMin` (bitwise OR of the inputs
on the compare-equal lanes):

    movaps  mask, result
    movaps  ored, result
    cmpneqp mask, xmm_b
    orps    ored, xmm_b
    minp    result, xmm_b
    andps   result, mask
    andnps  mask, ored
    orps    result, mask
-/
def minLaneSSE (eb mb : Nat) (a b : Nat) : Nat :=
  let w := 1 + eb + mb
  let mask := if x86eqF eb mb a b then 0 else onesF w
  let ored := a ||| b
  let result := x86minLaneF eb mb a b
  let result := result &&& mask
  let mask := (mask ^^^ onesF w) &&& ored
  result ||| mask

/-- The AVX lane sequence of `EmitFPVectorMax`:

    vcmpeqp   mask, result, xmm_b
    vandp     anded, result, xmm_b
    vmaxp     result, result, xmm_b
    vblendvp  result, result, anded, mask   ; per-lane select on the mask MSB
-/
def maxLaneAVX (eb mb : Nat) (a b : Nat) : Nat :=
  if x86eqF eb mb a b then a &&& b else x86maxLaneF eb mb a b

/-- The AVX lane sequence of `EmitFPVectorMin`. -/
def minLaneAVX (eb mb : Nat) (a b : Nat) : Nat :=
  if x86eqF eb mb a b then a ||| b else x86minLaneF eb mb a b

theorem land_lt_two_pow {w a b : Nat} (h : a < 2 ^ w) : a &&& b < 2 ^ w := by
  have := Nat.and_le_left (n := a) (m := b)
  omega

theorem lor_lt_two_pow {w a b : Nat} (ha : a < 2 ^ w) (hb : b < 2 ^ w) :
    a ||| b < 2 ^ w := by
  exact Nat.or_lt_two_pow ha hb

/-- C5 helper: the SSE max blend equals the AVX max blend. -/
theorem maxLaneSSE_eq {eb mb : Nat} {a b : Nat}
    (ha : a < 2 ^ (1 + eb + mb)) (hb : b < 2 ^ (1 + eb + mb)) :
    maxLaneSSE eb mb a b = maxLaneAVX eb mb a b := by
  unfold maxLaneSSE maxLaneAVX
  by_cases h : x86eqF eb mb a b
  · simp only [h, if_true]
    rw [Nat.and_zero, Nat.zero_xor, onesF_land (land_lt_two_pow ha), Nat.zero_or]
  · simp only [h, Bool.false_eq_true, if_false]
    have hmax : x86maxLaneF eb mb a b < 2 ^ (1 + eb + mb) := by
      unfold x86maxLaneF
      split <;> [exact hb; skip]
      split <;> [exact ha; exact hb]
    rw [land_onesF hmax, Nat.xor_self, Nat.zero_and, Nat.or_zero]

/-- C5 helper: the SSE min blend equals the AVX min blend. -/
theorem minLaneSSE_eq {eb mb : Nat} {a b : Nat}
    (ha : a < 2 ^ (1 + eb + mb)) (hb : b < 2 ^ (1 + eb + mb)) :
    minLaneSSE eb mb a b = minLaneAVX eb mb a b := by
  unfold minLaneSSE minLaneAVX
  by_cases h : x86eqF eb mb a b
  · simp only [h, if_true]
    rw [Nat.and_zero, Nat.zero_xor, onesF_land (lor_lt_two_pow ha hb), Nat.zero_or]
  · simp only [h, Bool.false_eq_true, if_false]
    have hmin : x86minLaneF eb mb a b < 2 ^ (1 + eb + mb) := by
      unfold x86minLaneF
      split <;> [exact hb; skip]
      split <;> [exact ha; exact hb]
    rw [land_onesF hmin, Nat.xor_self, Nat.zero_and, Nat.or_zero]

/-- C5: on every lane where the inputs compare equal under x86 semantics,
both the SSE and the AVX sequences of `EmitFPVectorMax`/`EmitFPVectorMin`
replace the x86 min/max result with the bitwise AND (max) resp. OR (min) of
the inputs, and leave the x86 result on all other lanes; in particular
FMAX(+0, −0) = +0 and FMIN(+0, −0) = −0 at both element widths. -/
theorem minmax_signed_zero_blend :
    (∀ eb mb a b : Nat, a < 2 ^ (1 + eb + mb) → b < 2 ^ (1 + eb + mb) →
        maxLaneSSE eb mb a b
          = (if x86eqF eb mb a b then a &&& b else x86maxLaneF eb mb a b)
      ∧ maxLaneAVX eb mb a b
          = (if x86eqF eb mb a b then a &&& b else x86maxLaneF eb mb a b)
      ∧ minLaneSSE eb mb a b
          = (if x86eqF eb mb a b then a ||| b else x86minLaneF eb mb a b)
      ∧ minLaneAVX eb mb a b
          = (if x86eqF eb mb a b then a ||| b else x86minLaneF eb mb a b))
    ∧ maxLaneSSE 8 23 0x00000000 0x80000000 = 0x00000000
    ∧ minLaneSSE 8 23 0x00000000 0x80000000 = 0x80000000
    ∧ maxLaneSSE 11 52 0 0x8000000000000000 = 0
    ∧ minLaneSSE 11 52 0 0x8000000000000000 = 0x8000000000000000 := by
  refine ⟨?_, by decide, by decide, by decide, by decide⟩
  intro eb mb a b ha hb
  exact ⟨(maxLaneSSE_eq ha hb).trans rfl, rfl,
         (minLaneSSE_eq ha hb).trans rfl, rfl⟩

/-- C5 witness: the blend theorem applied to the +0/−0 binary32 lanes. -/
theorem minmax_signed_zero_blend_witness :
    maxLaneSSE 8 23 0x00000000 0x80000000
      = (if x86eqF 8 23 0x00000000 0x80000000 then 0x00000000 &&& 0x80000000
         else x86maxLaneF 8 23 0x00000000 0x80000000)
    ∧ x86eqF 8 23 0x00000000 0x80000000 = true := by
  refine ⟨(minmax_signed_zero_blend.1 8 23 0x00000000 0x80000000
    (by norm_num) (by norm_num)).1, by decide⟩

/-! ## FP-to-fixed conversion: the AVX fast path of `EmitFPVectorToFixed` -/

/-- One lane of `vroundps` with rounding immediate 0b11 (truncate — the
`FP::RoundingMode::TowardsZero` case of `round_imm`): integral values,
infinities pass through; NaNs are quieted; the fraction bits below the
binary point are cleared otherwise. -/
def vroundTruncLane32 (x : Nat) : Nat :=
  let e := (x >>> 23) &&& 0xFF
  let m := x &&& 0x7FFFFF
  if e = 255 then (if m = 0 then x else x ||| 0x400000)
  else if 150 ≤ e then x
  else if e < 127 then x &&& 0x80000000
  else x &&& (0xFFFFFFFF <<< (150 - e))

/-- One lane of `vcmplt_oqps` (LT_OQ: ordered, quiet): all-ones iff neither
operand is NaN and the first is numerically less than the second. -/
def cmpltOQLane32 (x y : Nat) : Nat :=
  if !isNaN32 x && !isNaN32 y
      && decide (toOrderedIntF 32 x < toOrderedIntF 32 y) then onesF 32 else 0

/-- One lane of `vcmpge_oqps` (GE_OQ). -/
def cmpgeOQLane32 (x y : Nat) : Nat :=
  if !isNaN32 x && !isNaN32 y
      && decide (toOrderedIntF 32 y ≤ toOrderedIntF 32 x) then onesF 32 else 0

/-- `fp_lower_limit` of `EmitFPVectorToFixed<32, false>` (signed):
`0xcf000000u`, the float −2³¹. -/
def fpLowerLimitS32 : Nat := 0xCF000000

/-- `fp_upper_limit` of `EmitFPVectorToFixed<32, false>` (signed):
`0x4f000000u`, the float +2³¹. -/
def fpUpperLimitS32 : Nat := 0x4F000000

/-- The AVX fast path of `EmitFPVectorToFixed<32, false>` per lane, for
`fbits = 0` (no `vmulp` is emitted) and rounding mode TowardsZero:

    vroundp    src, src, 0b11
    vbroadcasts scratch, MConst(fp_lower_limit)
    vcmplt_oqp lower_limit_mask, scratch, src
    vbroadcasts scratch, MConst(fp_upper_limit)
    vcmpge_oqp upper_limit_mask, src, scratch
    vandnp     src, upper_limit_mask, src
    vandnp     src, lower_limit_mask, src
    ; the following `if (fp_lower_limit != 0) { }` block is empty and the
    ; function returns src here, without converting to integers

Note the emitted `lower_limit_mask` is `fp_lower_limit < src`, although the
comment table in the source documents it as `src < lower`. -/
def toSignedFixed32AVXLaneTrunc (src : Nat) : Nat :=
  let s := vroundTruncLane32 src
  let lowerLimitMask := cmpltOQLane32 fpLowerLimitS32 s
  let upperLimitMask := cmpgeOQLane32 s fpUpperLimitS32
  let s := (upperLimitMask ^^^ onesF 32) &&& s
  let s := (lowerLimitMask ^^^ onesF 32) &&& s
  s

/-- C1: the AVX fast path of FP-to-fixed does not saturate.  A +∞ lane is
forced to 0 rather than the maximum representable value 0x7FFFFFFF; a −∞
lane passes through as the bit pattern of −∞ rather than 0x80000000; a NaN
lane keeps its (quieted) NaN bits rather than becoming 0; and even the
in-range lane 1.0f is zeroed.  This contradicts the source's own mask
comment table (which documents `lower_limit_mask` as `src < lower`) and the
spec's saturation requirement. -/
theorem fp_to_fixed_avx_no_saturation :
    toSignedFixed32AVXLaneTrunc 0x7F800000 = 0
    ∧ toSignedFixed32AVXLaneTrunc 0x7F800000 ≠ 0x7FFFFFFF
    ∧ toSignedFixed32AVXLaneTrunc 0xFF800000 = 0xFF800000
    ∧ toSignedFixed32AVXLaneTrunc 0xFF800000 ≠ 0x80000000
    ∧ toSignedFixed32AVXLaneTrunc 0x7FC00001 = 0x7FC00001
    ∧ toSignedFixed32AVXLaneTrunc 0x3F800000 = 0 := by
  refine ⟨by decide, by decide, by decide, by decide, by decide, by decide⟩

/-! ## Thumb fetch and size classification (`ReadThumbInstruction`) -/

inductive ThumbInstSize where
  | thumb16
  | thumb32
deriving DecidableEq

/-- `ReadThumbInstruction`: fetch the aligned 32-bit word covering `arm_pc`,
select the halfword by bit 1 of the PC, and classify: a first part with
`(first_part & 0xF800) <= 0xE800` is returned as a 16-bit Thumb instruction;
otherwise the following halfword is fetched the same way and a combined
32-bit Thumb instruction is returned. -/
def readThumbInstruction (armPc : Nat) (memoryRead32 : Nat → Nat) :
    Nat × ThumbInstSize :=
  let firstPart := memoryRead32 (armPc &&& 0xFFFFFFFC)
  let firstPart := if armPc &&& 0x2 ≠ 0 then firstPart >>> 16 else firstPart
  let firstPart := firstPart &&& 0xFFFF
  if firstPart &&& 0xF800 ≤ 0xE800 then
    (firstPart, ThumbInstSize.thumb16)
  else
    let secondPart := memoryRead32 ((armPc + 2) &&& 0xFFFFFFFC)
    let secondPart :=
      if (armPc + 2) &&& 0x2 ≠ 0 then secondPart >>> 16 else secondPart
    let secondPart := secondPart &&& 0xFFFF
    ((firstPart <<< 16) ||| secondPart, ThumbInstSize.thumb32)

/-- In `TranslateThumb`, an instruction classified 16-bit is handed to the
Thumb16 decoder (`DecodeThumb16`, falling back to `thumb16_UDF`); one
classified 32-bit is not decoded and the visitor's
`InterpretThisInstruction` terminates the block with `Interpret`. -/
inductive ThumbDispatch where
  | decoder16
  | interpretFallback
deriving DecidableEq

/-- The dispatch decision of the `TranslateThumb` loop body. -/
def translateThumbDispatch : ThumbInstSize → ThumbDispatch
  | ThumbInstSize.thumb16 => ThumbDispatch.decoder16
  | ThumbInstSize.thumb32 => ThumbDispatch.interpretFallback

/-- C2: a halfword whose high 5 bits are 0b11101 (e.g. 0xE800) satisfies
`(first_part & 0xF800) <= 0xE800` and is classified as a 16-bit Thumb
instruction, so `TranslateThumb` feeds it to the 16-bit decoder — although
such halfwords are the first half of 32-bit Thumb encodings (as the
source's own comment states).  Halfwords starting 0b11110/0b11111 are
classified 32-bit. -/
theorem thumb32_11101_prefix_misclassified :
    (0xE800 >>> 11 = 0b11101)
    ∧ (readThumbInstruction 0 (fun _ => 0xE800)).2 = ThumbInstSize.thumb16
    ∧ translateThumbDispatch (readThumbInstruction 0 (fun _ => 0xE800)).2
        = ThumbDispatch.decoder16
    ∧ (readThumbInstruction 0 (fun _ => 0xF000)).2 = ThumbInstSize.thumb32
    ∧ (readThumbInstruction 0 (fun _ => 0xF800)).2 = ThumbInstSize.thumb32 := by
  refine ⟨by decide, by decide, by decide, by decide, by decide⟩

/-! ## Thumb translator visitors (`ThumbTranslatorVisitor`) -/

/-- IR value expressions built by the `IREmitter` calls the Thumb visitors
use.  Composite results (shifts, add/sub-with-carry) are nodes from which
`result`/`carry`/`overflow` fields are extracted. -/
inductive IRExpr where
  | getRegister (r : Nat)
  | getCFlag
  | imm1 (v : Nat)
  | imm8 (v : Nat)
  | imm32 (v : Nat)
  | logicalShiftRight (x n cin : IRExpr)
  | arithmeticShiftRight (x n cin : IRExpr)
  | addWithCarry (a b cin : IRExpr)
  | subWithCarry (a b cin : IRExpr)
  | resultOf (e : IRExpr)
  | carryOf (e : IRExpr)
  | overflowOf (e : IRExpr)
  | mostSignificantBit (e : IRExpr)
  | isZero (e : IRExpr)
deriving DecidableEq

/-- Block terminators the modelled visitors can set. -/
inductive IRTerm where
  | interpret (pc : Nat)
  | returnToDispatch
deriving DecidableEq

/-- IR instructions with side effects appended by the visitors. -/
inductive IRAction where
  | setRegister (d : Nat) (e : IRExpr)
  | setNFlag (e : IRExpr)
  | setZFlag (e : IRExpr)
  | setCFlag (e : IRExpr)
  | setVFlag (e : IRExpr)
  | aluWritePC (e : IRExpr)
deriving DecidableEq

/-- The emitter state a visitor mutates: emitted actions and the block
terminator, if set. -/
structure EmitterState where
  actions : List IRAction
  term : Option IRTerm
deriving DecidableEq

/-- A visitor either returns `true` (continue), returns `false` (stop), or
hits `ASSERT_MSG(false, ...)` and aborts the process. -/
inductive VisitOutcome where
  | continueTrans
  | stopTrans
  | aborted
deriving DecidableEq

def emit (s : EmitterState) (a : IRAction) : EmitterState :=
  { s with actions := s.actions ++ [a] }

/-- `UnpredictableInstruction`: `ASSERT_MSG(false, "UNPREDICTABLE")` fires
unconditionally, aborting translation before any IR is emitted; the
`return false` after it is unreachable. -/
def unpredictableInstruction (s : EmitterState) : VisitOutcome × EmitterState :=
  (VisitOutcome.aborted, s)

/-- `InterpretThisInstruction`: set an `Interpret` terminator at the current
location and stop. -/
def interpretThisInstruction (pc : Nat) (s : EmitterState) :
    VisitOutcome × EmitterState :=
  (VisitOutcome.stopTrans, { s with term := some (IRTerm.interpret pc) })

/-- `thumb16_LSR_imm`: `shift_n = imm5 != 0 ? imm5 : 32`, then
`LogicalShiftRight(GetRegister(m), Imm8(shift_n), GetCFlag())`, writing
Rd and the N/Z/C flags. -/
def thumb16LSRImm (imm5 m d : Nat) (s : EmitterState) :
    VisitOutcome × EmitterState :=
  let shiftN := if imm5 ≠ 0 then imm5 else 32
  let cpsrC := IRExpr.getCFlag
  let result := IRExpr.logicalShiftRight (IRExpr.getRegister m)
    (IRExpr.imm8 shiftN) cpsrC
  let s := emit s (IRAction.setRegister d (IRExpr.resultOf result))
  let s := emit s (IRAction.setNFlag
    (IRExpr.mostSignificantBit (IRExpr.resultOf result)))
  let s := emit s (IRAction.setZFlag (IRExpr.isZero (IRExpr.resultOf result)))
  let s := emit s (IRAction.setCFlag (IRExpr.carryOf result))
  (VisitOutcome.continueTrans, s)

/-- `thumb16_ASR_imm`: `shift_n = imm5 != 0 ? imm5 : 32`, then
`ArithmeticShiftRight(GetRegister(m), Imm8(shift_n), GetCFlag())`. -/
def thumb16ASRImm (imm5 m d : Nat) (s : EmitterState) :
    VisitOutcome × EmitterState :=
  let shiftN := if imm5 ≠ 0 then imm5 else 32
  let cpsrC := IRExpr.getCFlag
  let result := IRExpr.arithmeticShiftRight (IRExpr.getRegister m)
    (IRExpr.imm8 shiftN) cpsrC
  let s := emit s (IRAction.setRegister d (IRExpr.resultOf result))
  let s := emit s (IRAction.setNFlag
    (IRExpr.mostSignificantBit (IRExpr.resultOf result)))
  let s := emit s (IRAction.setZFlag (IRExpr.isZero (IRExpr.resultOf result)))
  let s := emit s (IRAction.setCFlag (IRExpr.carryOf result))
  (VisitOutcome.continueTrans, s)

/-- `thumb16_ADD_reg_t2`: `Rdn` decoded from `d_n_hi:d_n_lo`; unpredictable
when both `Rn` and `Rm` are PC; writing PC goes through `ALUWritePC` and a
`ReturnToDispatch` terminator. -/
def thumb16ADDRegT2 (dnHi : Bool) (m dnLo : Nat) (s : EmitterState) :
    VisitOutcome × EmitterState :=
  let dn := if dnHi then dnLo + 8 else dnLo
  let d := dn
  let n := dn
  if n = 15 ∧ m = 15 then
    unpredictableInstruction s
  else
    let result := IRExpr.addWithCarry (IRExpr.getRegister n)
      (IRExpr.getRegister m) (IRExpr.imm1 0)
    if d = 15 then
      let s := emit s (IRAction.aluWritePC (IRExpr.resultOf result))
      let s := { s with term := some IRTerm.returnToDispatch }
      (VisitOutcome.stopTrans, s)
    else
      (VisitOutcome.continueTrans,
        emit s (IRAction.setRegister d (IRExpr.resultOf result)))

/-- `thumb16_CMP_reg_t2`: unpredictable when both registers are below R8, or
when either is PC; otherwise `SubWithCarry` and the four flags. -/
def thumb16CMPRegT2 (nHi : Bool) (m nLo : Nat) (s : EmitterState) :
    VisitOutcome × EmitterState :=
  let n := if nHi then nLo + 8 else nLo
  if n < 8 ∧ m < 8 then
    unpredictableInstruction s
  else if n = 15 ∨ m = 15 then
    unpredictableInstruction s
  else
    let result := IRExpr.subWithCarry (IRExpr.getRegister n)
      (IRExpr.getRegister m) (IRExpr.imm1 1)
    let s := emit s (IRAction.setNFlag
      (IRExpr.mostSignificantBit (IRExpr.resultOf result)))
    let s := emit s (IRAction.setZFlag (IRExpr.isZero (IRExpr.resultOf result)))
    let s := emit s (IRAction.setCFlag (IRExpr.carryOf result))
    let s := emit s (IRAction.setVFlag (IRExpr.overflowOf result))
    (VisitOutcome.continueTrans, s)

/-- Every `Imm8` shift amount occurring as the amount operand of a
`LogicalShiftRight`/`ArithmeticShiftRight` node in an expression. -/
def IRExpr.shiftAmounts : IRExpr → List Nat
  | .getRegister _ => []
  | .getCFlag => []
  | .imm1 _ => []
  | .imm8 _ => []
  | .imm32 _ => []
  | .logicalShiftRight x n cin =>
      (match n with | .imm8 v => [v] | _ => [])
        ++ x.shiftAmounts ++ n.shiftAmounts ++ cin.shiftAmounts
  | .arithmeticShiftRight x n cin =>
      (match n with | .imm8 v => [v] | _ => [])
        ++ x.shiftAmounts ++ n.shiftAmounts ++ cin.shiftAmounts
  | .addWithCarry a b cin => a.shiftAmounts ++ b.shiftAmounts ++ cin.shiftAmounts
  | .subWithCarry a b cin => a.shiftAmounts ++ b.shiftAmounts ++ cin.shiftAmounts
  | .resultOf e => e.shiftAmounts
  | .carryOf e => e.shiftAmounts
  | .overflowOf e => e.shiftAmounts
  | .mostSignificantBit e => e.shiftAmounts
  | .isZero e => e.shiftAmounts

def IRAction.shiftAmounts : IRAction → List Nat
  | .setRegister _ e => e.shiftAmounts
  | .setNFlag e => e.shiftAmounts
  | .setZFlag e => e.shiftAmounts
  | .setCFlag e => e.shiftAmounts
  | .setVFlag e => e.shiftAmounts
  | .aluWritePC e => e.shiftAmounts

/-- All shift amounts occurring in the emitted actions of a state. -/
def stateShiftAmounts (s : EmitterState) : List Nat :=
  (s.actions.map IRAction.shiftAmounts).flatten

/-- C9: a Thumb16 LSR-immediate or ASR-immediate with `imm5 = 0` emits a
shift by 32, not a shift by 0: every shift node emitted by
`thumb16_LSR_imm`/`thumb16_ASR_imm` carries the amount
`if imm5 = 0 then 32 else imm5` (the node is referenced by the four emitted
instructions). -/
theorem lsr_asr_imm5_zero_is_shift_32 (imm5 m d : Nat) :
    stateShiftAmounts (thumb16LSRImm imm5 m d ⟨[], none⟩).2
      = List.replicate 4 (if imm5 = 0 then 32 else imm5)
    ∧ stateShiftAmounts (thumb16ASRImm imm5 m d ⟨[], none⟩).2
      = List.replicate 4 (if imm5 = 0 then 32 else imm5) := by
  by_cases h : imm5 = 0 <;>
    simp [thumb16LSRImm, thumb16ASRImm, emit, stateShiftAmounts,
      IRAction.shiftAmounts, IRExpr.shiftAmounts, h, List.replicate]

/-- C10: the unpredictable encodings of `thumb16_ADD_reg_t2` (both source
registers PC) and `thumb16_CMP_reg_t2` (both registers below R8, or either
register PC) call `UnpredictableInstruction`, which unconditionally asserts
false and aborts with the emitter state untouched — in particular no
`Interpret` terminator is emitted. -/
theorem unpredictable_encodings_abort :
    (∀ s : EmitterState, unpredictableInstruction s = (VisitOutcome.aborted, s))
    ∧ (∀ (hi : Bool) (m lo : Nat) (s : EmitterState),
        (if hi then lo + 8 else lo) = 15 → m = 15 →
        thumb16ADDRegT2 hi m lo s = (VisitOutcome.aborted, s))
    ∧ (∀ (hi : Bool) (m lo : Nat) (s : EmitterState),
        ((if hi then lo + 8 else lo) < 8 ∧ m < 8)
          ∨ (if hi then lo + 8 else lo) = 15 ∨ m = 15 →
        thumb16CMPRegT2 hi m lo s = (VisitOutcome.aborted, s)) := by
  refine ⟨fun s => rfl, ?_, ?_⟩
  · intro hi m lo s hn hm
    unfold thumb16ADDRegT2
    simp only [hn, hm, and_self, if_true]
    rfl
  · intro hi m lo s hcond
    unfold thumb16CMPRegT2
    rcases hcond with ⟨h1, h2⟩ | h | h
    · rw [if_pos ⟨h1, h2⟩]; rfl
    · by_cases hlow : (if hi then lo + 8 else lo) < 8 ∧ m < 8
      · rw [if_pos hlow]; rfl
      · rw [if_neg hlow, if_pos (Or.inl h)]; rfl
    · by_cases hlow : (if hi then lo + 8 else lo) < 8 ∧ m < 8
      · rw [if_pos hlow]; rfl
      · rw [if_neg hlow, if_pos (Or.inr h)]; rfl

/-- C10 witness: `ADD R15, PC, PC` (`d_n_hi = 1, d_n_lo = 7, m = 15`) and
the `CMP` encodings `(n, m) = (R3, R2)` (both low) and `(R15, R7)` abort
with the initial state unchanged. -/
theorem unpredictable_encodings_abort_witness :
    thumb16ADDRegT2 true 15 7 ⟨[], none⟩ = (VisitOutcome.aborted, ⟨[], none⟩)
    ∧ thumb16CMPRegT2 false 2 3 ⟨[], none⟩ = (VisitOutcome.aborted, ⟨[], none⟩)
    ∧ thumb16CMPRegT2 true 15 7 ⟨[], none⟩ = (VisitOutcome.aborted, ⟨[], none⟩) := by
  refine ⟨unpredictable_encodings_abort.2.1 true 15 7 ⟨[], none⟩ (by decide) rfl,
    unpredictable_encodings_abort.2.2 false 2 3 ⟨[], none⟩ (Or.inl (by decide)),
    unpredictable_encodings_abort.2.2 true 15 7 ⟨[], none⟩
      (Or.inr (Or.inl (by decide)))⟩

/-! ## The A32 constant-memory-reads / dead-C-flag pass
(`ir_opt/a32_constant_memory_reads_pass.cpp`)

An IR block is a list of instructions; an instruction has an opcode and a
list of argument values; a value is an immediate of a primitive type or a
reference to an earlier instruction of the block (SSA).  The pass
`A32ConstantMemoryReads` walks the instructions in order; an `A32SetCFlag`
whose argument is the value of an `A32GetCFlag` is invalidated; an
`A32ReadMemoryN` whose arguments are all immediates and whose address the
callback reports read-only has all its uses replaced with the literal read
through the callback. -/

inductive IRType where
  | u1
  | u8
  | u16
  | u32
  | u64
deriving DecidableEq

inductive Opcode where
  | void
  | a32GetCFlag
  | a32SetCFlag
  | a32GetNFlag
  | a32SetNFlag
  | a32GetZFlag
  | a32SetZFlag
  | a32GetVFlag
  | a32SetVFlag
  | a32ReadMemory8
  | a32ReadMemory16
  | a32ReadMemory32
  | a32ReadMemory64
  | a32GetRegister
  | a32SetRegister
  | add32
  | sub32
deriving DecidableEq

inductive Value where
  | imm (ty : IRType) (v : Nat)
  | instRef (j : Nat)
deriving DecidableEq

structure Inst where
  op : Opcode
  args : List Value
deriving DecidableEq

/-- The host callback surface the pass consults (`A32::UserCallbacks`).
Lean functions are deterministic by construction. -/
structure UserCallbacks where
  isReadOnlyMemory : Nat → Bool
  memoryRead8 : Nat → Nat
  memoryRead16 : Nat → Nat
  memoryRead32 : Nat → Nat
  memoryRead64 : Nat → Nat

def Value.isImmediate : Value → Bool
  | .imm _ _ => true
  | .instRef _ => false

/-- `Value::GetU32` on an immediate (the IR type discipline guarantees the
address argument of a memory read is a `u32` immediate here). -/
def Value.getU32 : Value → Nat
  | .imm _ v => v
  | .instRef _ => 0

def Inst.areAllArgsImmediates (inst : Inst) : Bool :=
  inst.args.all Value.isImmediate

/-- Modelled from the spec: `Inst::Invalidate()` (frontend/ir, not under
src/) turns the instruction into a no-op that remains in the list — opcode
becomes `Void`, arguments are cleared. -/
def invalidatedInst : Inst := ⟨Opcode.void, []⟩

def Opcode.isReadMemory : Opcode → Bool
  | .a32ReadMemory8 => true
  | .a32ReadMemory16 => true
  | .a32ReadMemory32 => true
  | .a32ReadMemory64 => true
  | _ => false

/-- The literal `IR::Value{value_from_memory}` built from the callback for
each read width. -/
def readLiteral (cb : UserCallbacks) (op : Opcode) (vaddr : Nat) : Value :=
  match op with
  | .a32ReadMemory8 => .imm .u8 (cb.memoryRead8 vaddr)
  | .a32ReadMemory16 => .imm .u16 (cb.memoryRead16 vaddr)
  | .a32ReadMemory32 => .imm .u32 (cb.memoryRead32 vaddr)
  | .a32ReadMemory64 => .imm .u64 (cb.memoryRead64 vaddr)
  | _ => .imm .u32 0

def substVal (i : Nat) (lit : Value) : Value → Value
  | .instRef j => if j = i then lit else .instRef j
  | v => v

/-- Modelled from the spec: `Inst::ReplaceUsesWith` (frontend/ir, not under
src/) rewrites every use of instruction `i` anywhere in the block to the
replacement value. -/
def replaceUsesWith (i : Nat) (lit : Value) (L : List Inst) : List Inst :=
  L.map fun inst => ⟨inst.op, inst.args.map (substVal i lit)⟩

theorem substVal_instRef (i : Nat) (lit : Value) (j : Nat) :
    substVal i lit (.instRef j) = if j = i then lit else .instRef j := rfl

theorem substVal_imm (i : Nat) (lit : Value) (ty : IRType) (v : Nat) :
    substVal i lit (.imm ty v) = .imm ty v := rfl

/-- The loop body of `A32ConstantMemoryReads` for the instruction at
index `i`. -/
def stepInst (cb : UserCallbacks) (L : List Inst) (i : Nat) : List Inst :=
  match L[i]? with
  | none => L
  | some inst =>
    if inst.op = .a32SetCFlag then
      match inst.args.head? with
      | some (.instRef j) =>
        match L[j]? with
        | some target =>
          if target.op = .a32GetCFlag then L.set i invalidatedInst else L
        | none => L
      | _ => L
    else if inst.op.isReadMemory then
      if inst.areAllArgsImmediates then
        if cb.isReadOnlyMemory ((inst.args.headD (.imm .u32 0)).getU32) then
          replaceUsesWith i
            (readLiteral cb inst.op ((inst.args.headD (.imm .u32 0)).getU32)) L
        else L
      else L
    else L

/-- `Optimization::A32ConstantMemoryReads`: fold the loop body over the
instructions of the block in program order. -/
def a32ConstantMemoryReads (cb : UserCallbacks) (L : List Inst) : List Inst :=
  (List.range L.length).foldl (stepInst cb) L

/-- A callback with no read-only memory and all-zero reads. -/
def trivialCallbacks : UserCallbacks :=
  ⟨fun _ => false, fun _ => 0, fun _ => 0, fun _ => 0, fun _ => 0⟩

/-- C7 counterexample: the pass leaves `A32SetNFlag(A32GetNFlag())`
untouched — the dead-flag elimination exists only for the C flag, so the
claim's quantification over all of {N, Z, C, V} fails at the N flag. -/
theorem dead_nflag_set_not_invalidated :
    a32ConstantMemoryReads trivialCallbacks
        [⟨.a32GetNFlag, []⟩, ⟨.a32SetNFlag, [.instRef 0]⟩]
      = [⟨.a32GetNFlag, []⟩, ⟨.a32SetNFlag, [.instRef 0]⟩]
    ∧ (⟨.a32SetNFlag, [.instRef 0]⟩ : Inst) ≠ invalidatedInst := by
  refine ⟨by decide, by decide⟩

/-- C6 counterexample: the pass invalidates `A32SetCFlag(A32GetCFlag())`,
which is not a memory-read instruction, so "every other instruction of the
block is left unchanged" fails. -/
theorem setcflag_changed_by_memory_reads_pass :
    (a32ConstantMemoryReads trivialCallbacks
        [⟨.a32GetCFlag, []⟩, ⟨.a32SetCFlag, [.instRef 0]⟩])[1]?
      = some invalidatedInst
    ∧ ([(⟨.a32GetCFlag, []⟩ : Inst), ⟨.a32SetCFlag, [.instRef 0]⟩][1]?
        = some (⟨.a32SetCFlag, [.instRef 0]⟩ : Inst))
    ∧ (⟨.a32SetCFlag, [.instRef 0]⟩ : Inst) ≠ invalidatedInst
    ∧ Opcode.isReadMemory .a32SetCFlag = false := by
  refine ⟨by decide, by decide, by decide, by decide⟩

section PassInfra

theorem length_replaceUsesWith (i : Nat) (lit : Value) (L : List Inst) :
    (replaceUsesWith i lit L).length = L.length := List.length_map ..

theorem getElem?_replaceUsesWith (i : Nat) (lit : Value) (L : List Inst)
    (m : Nat) :
    (replaceUsesWith i lit L)[m]?
      = (L[m]?).map (fun inst => ⟨inst.op, inst.args.map (substVal i lit)⟩) :=
  List.getElem?_map ..

theorem stepInst_length (cb : UserCallbacks) (L : List Inst) (k : Nat) :
    (stepInst cb L k).length = L.length := by
  unfold stepInst
  repeat' split
  all_goals simp [List.length_set, length_replaceUsesWith]

/-- Every application of the loop body is the identity, an invalidation at
its own index (with the dead-C-flag conditions), or a use replacement for a
foldable read at its own index. -/
theorem stepInst_spec (cb : UserCallbacks) (S : List Inst) (k : Nat) :
    stepInst cb S k = S
    ∨ (∃ inst j target, S[k]? = some inst ∧ inst.op = .a32SetCFlag
        ∧ inst.args.head? = some (.instRef j) ∧ S[j]? = some target
        ∧ target.op = .a32GetCFlag
        ∧ stepInst cb S k = S.set k invalidatedInst)
    ∨ (∃ inst, S[k]? = some inst ∧ inst.op.isReadMemory = true
        ∧ inst.areAllArgsImmediates = true
        ∧ cb.isReadOnlyMemory ((inst.args.headD (.imm .u32 0)).getU32) = true
        ∧ stepInst cb S k
            = replaceUsesWith k
                (readLiteral cb inst.op ((inst.args.headD (.imm .u32 0)).getU32))
                S) := by
  unfold stepInst
  split
  · exact Or.inl rfl
  rename_i inst hinst
  split
  · rename_i hop
    split
    · rename_i j hhead
      split
      · rename_i target htarget
        split
        · rename_i hget
          exact Or.inr (Or.inl ⟨inst, j, target, hinst, hop, hhead, htarget,
            hget, rfl⟩)
        · exact Or.inl rfl
      · exact Or.inl rfl
    · exact Or.inl rfl
  · rename_i hop
    split
    · rename_i hread
      split
      · rename_i hallimm
        split
        · rename_i hro
          exact Or.inr (Or.inr ⟨inst, hinst, hread, hallimm, hro, rfl⟩)
        · exact Or.inl rfl
      · exact Or.inl rfl
    · exact Or.inl rfl

/-- Folding the loop body over an arbitrary index list. -/
def runIdx (cb : UserCallbacks) (L : List Inst) (ks : List Nat) : List Inst :=
  ks.foldl (stepInst cb) L

theorem a32ConstantMemoryReads_eq_runIdx (cb : UserCallbacks) (L : List Inst) :
    a32ConstantMemoryReads cb L = runIdx cb L (List.range L.length) := rfl

theorem runIdx_nil (cb : UserCallbacks) (L : List Inst) :
    runIdx cb L [] = L := rfl

theorem runIdx_cons (cb : UserCallbacks) (L : List Inst) (k : Nat)
    (ks : List Nat) : runIdx cb L (k :: ks) = runIdx cb (stepInst cb L k) ks :=
  rfl

theorem runIdx_append (cb : UserCallbacks) (L : List Inst) (ks₁ ks₂ : List Nat) :
    runIdx cb L (ks₁ ++ ks₂) = runIdx cb (runIdx cb L ks₁) ks₂ :=
  List.foldl_append ..

theorem runIdx_length (cb : UserCallbacks) (L : List Inst) (ks : List Nat) :
    (runIdx cb L ks).length = L.length := by
  induction ks generalizing L with
  | nil => rfl
  | cons k ks ih => rw [runIdx_cons, ih, stepInst_length]

end PassInfra

section PassEvolution

theorem readLiteral_ne_instRef (cb : UserCallbacks) (op : Opcode)
    (vaddr j : Nat) : readLiteral cb op vaddr ≠ .instRef j := by
  cases op <;> simp [readLiteral]

/-- After one loop-body application the opcode at any index is unchanged,
except that an `A32SetCFlag` may have become `Void`. -/
theorem step_opAt (cb : UserCallbacks) (S : List Inst) (k i : Nat) :
    ((stepInst cb S k)[i]?).map Inst.op = (S[i]?).map Inst.op
    ∨ ((S[i]?).map Inst.op = some .a32SetCFlag
        ∧ ((stepInst cb S k)[i]?).map Inst.op = some .void) := by
  rcases stepInst_spec cb S k with h
    | ⟨inst, j, target, hk, hop, hh, hj, hg, h⟩
    | ⟨inst, hk, hr, ha, hro, h⟩
  · rw [h]; exact Or.inl rfl
  · rw [h]
    by_cases hik : i = k
    · subst hik
      have hlen : i < S.length := (List.getElem?_eq_some.mp hk).fst
      rw [List.getElem?_set_self hlen, hk]
      exact Or.inr ⟨by simp [hop], rfl⟩
    · rw [List.getElem?_set_ne (by omega)]
      exact Or.inl rfl
  · rw [h, getElem?_replaceUsesWith]
    cases S[i]? <;> simp

theorem runIdx_opAt (cb : UserCallbacks) (S : List Inst) (ks : List Nat)
    (i : Nat) :
    ((runIdx cb S ks)[i]?).map Inst.op = (S[i]?).map Inst.op
    ∨ ((S[i]?).map Inst.op = some .a32SetCFlag
        ∧ ((runIdx cb S ks)[i]?).map Inst.op = some .void) := by
  induction ks generalizing S with
  | nil => exact Or.inl rfl
  | cons k ks ih =>
    rw [runIdx_cons]
    rcases step_opAt cb S k i with h | ⟨h1, h2⟩
    · rcases ih (stepInst cb S k) with h' | ⟨h1', h2'⟩
      · exact Or.inl (h'.trans h)
      · exact Or.inr ⟨h.symm.trans h1', h2'⟩
    · rcases ih (stepInst cb S k) with h' | ⟨h1', h2'⟩
      · exact Or.inr ⟨h1, h'.trans h2⟩
      · rw [h2] at h1'
        cases h1'

theorem step_invalidated_stable (cb : UserCallbacks) (S : List Inst)
    (k i : Nat) (h : S[i]? = some invalidatedInst) :
    (stepInst cb S k)[i]? = some invalidatedInst := by
  rcases stepInst_spec cb S k with hs
    | ⟨inst, j, t, hk, hop, hh, hj, hg, hs⟩
    | ⟨inst, hk, hr, ha, hro, hs⟩
  · rw [hs]; exact h
  · rw [hs]
    by_cases hik : i = k
    · subst hik
      rw [h] at hk
      injection hk with hh'
      rw [← hh'] at hop
      exact absurd hop (by decide)
    · rw [List.getElem?_set_ne (by omega)]
      exact h
  · rw [hs, getElem?_replaceUsesWith, h]
    rfl

theorem runIdx_invalidated_stable (cb : UserCallbacks) (S : List Inst)
    (ks : List Nat) (i : Nat) (h : S[i]? = some invalidatedInst) :
    (runIdx cb S ks)[i]? = some invalidatedInst := by
  induction ks generalizing S with
  | nil => exact h
  | cons k ks ih => exact ih _ (step_invalidated_stable cb S k i h)

/-- The dead-C-flag elimination condition at index `i`. -/
def CElim (S : List Inst) (i : Nat) : Prop :=
  ∃ inst j target, S[i]? = some inst ∧ inst.op = .a32SetCFlag
    ∧ inst.args.head? = some (.instRef j) ∧ S[j]? = some target
    ∧ target.op = .a32GetCFlag

/-- Processing index `i` while the elimination condition holds invalidates
the instruction. -/
theorem step_at_CElim (cb : UserCallbacks) (S : List Inst) (i : Nat)
    (h : CElim S i) : (stepInst cb S i)[i]? = some invalidatedInst := by
  obtain ⟨inst, j, t, h1, h2, h3, h4, h5⟩ := h
  have hlen : i < S.length := (List.getElem?_eq_some.mp h1).fst
  unfold stepInst
  rw [h1]
  simp only
  rw [if_pos h2, h3]
  simp only
  rw [h4]
  simp only
  rw [if_pos h5]
  exact List.getElem?_set_self hlen

/-- The elimination condition is preserved by processing any index, unless
the instruction has been invalidated. -/
theorem step_CElim_stable (cb : UserCallbacks) (S : List Inst) (k i : Nat)
    (h : CElim S i) :
    CElim (stepInst cb S k) i
    ∨ (stepInst cb S k)[i]? = some invalidatedInst := by
  obtain ⟨inst, j, t, h1, h2, h3, h4, h5⟩ := h
  rcases stepInst_spec cb S k with hs
    | ⟨inst', j', t', hk', hop', hh', hj', hg', hs⟩
    | ⟨inst', hk', hr', ha', hro', hs⟩
  · rw [hs]; exact Or.inl ⟨inst, j, t, h1, h2, h3, h4, h5⟩
  · by_cases hik : i = k
    · subst hik
      rw [hs]
      have hlen : i < S.length := (List.getElem?_eq_some.mp h1).fst
      exact Or.inr (List.getElem?_set_self hlen)
    · rw [hs]
      have hjk : j ≠ k := by
        intro hjk
        subst hjk
        rw [h4] at hk'
        injection hk' with he
        rw [← he] at hop'
        rw [h5] at hop'
        exact absurd hop' (by decide)
      left
      refine ⟨inst, j, t, ?_, h2, h3, ?_, h5⟩
      · rw [List.getElem?_set_ne (by omega)]; exact h1
      · rw [List.getElem?_set_ne (by omega)]; exact h4
  · rw [hs]
    left
    refine ⟨⟨inst.op, inst.args.map (substVal k (readLiteral cb inst'.op
      ((inst'.args.headD (.imm .u32 0)).getU32)))⟩, j,
      ⟨t.op, t.args.map (substVal k (readLiteral cb inst'.op
      ((inst'.args.headD (.imm .u32 0)).getU32)))⟩, ?_, h2, ?_, ?_, h5⟩
    · rw [getElem?_replaceUsesWith, h1]; rfl
    · have hjk : j ≠ k := by
        intro hjk
        subst hjk
        rw [h4] at hk'
        injection hk' with he
        rw [← he] at hr'
        rw [h5] at hr'
        exact absurd hr' (by decide)
      simp only [List.head?_map, h3, Option.map_some]
      simp [substVal, hjk]
    · rw [getElem?_replaceUsesWith, h4]; rfl

theorem runIdx_CElim_stable (cb : UserCallbacks) (S : List Inst)
    (ks : List Nat) (i : Nat) (h : CElim S i) :
    CElim (runIdx cb S ks) i
    ∨ (runIdx cb S ks)[i]? = some invalidatedInst := by
  induction ks generalizing S with
  | nil => exact Or.inl h
  | cons k ks ih =>
    rw [runIdx_cons]
    rcases step_CElim_stable cb S k i h with h' | h'
    · exact ih _ h'
    · exact Or.inr (runIdx_invalidated_stable cb _ ks i h')

theorem runIdx_range_split (cb : UserCallbacks) (L : List Inst) (n i : Nat)
    (h : i < n) :
    runIdx cb L (List.range n)
      = runIdx cb (stepInst cb (runIdx cb L (List.range i)) i)
          ((List.range (n - i - 1)).map (i + 1 + ·)) := by
  have hn : n = (i + 1) + (n - i - 1) := by omega
  nth_rewrite 1 [hn]
  rw [List.range_add, runIdx_append, List.range_succ, runIdx_append]
  rfl

end PassEvolution

section PassC7

/-- A C-flag set at `i` whose (current) argument is not the value of an
`A32GetCFlag`. -/
def NotCElim (S : List Inst) (i : Nat) : Prop :=
  ((S[i]?).map Inst.op = some .a32SetCFlag)
  ∧ ∀ inst j, S[i]? = some inst → inst.args.head? = some (.instRef j) →
      (S[j]?).map Inst.op ≠ some .a32GetCFlag

theorem step_NotCElim_stable (cb : UserCallbacks) (S : List Inst) (k i : Nat)
    (h : NotCElim S i) : NotCElim (stepInst cb S k) i := by
  obtain ⟨h1, h2⟩ := h
  rcases stepInst_spec cb S k with hs
    | ⟨inst', j', t', hk', hop', hh', hj', hg', hs⟩
    | ⟨inst', hk', hr', ha', hro', hs⟩
  · rw [hs]; exact ⟨h1, h2⟩
  · have hik : i ≠ k := by
      intro hik
      subst hik
      exact h2 inst' j' hk' hh' (by rw [hj']; simp [hg'])
    rw [hs]
    constructor
    · rw [List.getElem?_set_ne (by omega)]; exact h1
    · intro inst j hSi hhead
      rw [List.getElem?_set_ne (by omega)] at hSi
      by_cases hjk : j = k
      · subst hjk
        rw [List.getElem?_set_self ((List.getElem?_eq_some.mp hk').fst)]
        decide
      · rw [List.getElem?_set_ne (by omega)]
        exact h2 inst j hSi hhead
  · rw [hs]
    constructor
    · rw [getElem?_replaceUsesWith]
      cases hSi : S[i]? with
      | none => rw [hSi] at h1; cases h1
      | some inst0 =>
        rw [hSi] at h1
        simp only [Option.map_some', Option.some.injEq] at h1
        simp [h1]
    · intro inst j hSi hhead
      rw [getElem?_replaceUsesWith] at hSi
      cases hSi0 : S[i]? with
      | none => rw [hSi0] at hSi; cases hSi
      | some inst0 =>
        rw [hSi0] at hSi
        injection hSi with he
        have hargs : inst.args = inst0.args.map (substVal k (readLiteral cb
            inst'.op ((inst'.args.headD (.imm .u32 0)).getU32))) := by
          rw [← he]
        rw [hargs, List.head?_map] at hhead
        cases hh0 : inst0.args.head? with
        | none => rw [hh0] at hhead; cases hhead
        | some v =>
          rw [hh0] at hhead
          simp only [Option.map_some', Option.some.injEq] at hhead
          cases v with
          | imm ty w => exact Value.noConfusion hhead
          | instRef j0 =>
            rw [substVal_instRef] at hhead
            have hj0 : j0 = j := by
              by_cases hj0k : j0 = k
              · rw [if_pos hj0k] at hhead
                exact absurd hhead (readLiteral_ne_instRef cb inst'.op
                  ((inst'.args.headD (.imm .u32 0)).getU32) j)
              · rw [if_neg hj0k] at hhead
                injection hhead
            have hne := h2 inst0 j hSi0 (by rw [hh0, hj0])
            rw [getElem?_replaceUsesWith]
            cases hSj : S[j]? with
            | none => simp [hSj]
            | some tj =>
              rw [hSj] at hne
              simp only [Option.map_some', ne_eq, Option.some.injEq] at hne ⊢
              exact hne

theorem runIdx_NotCElim_stable (cb : UserCallbacks) (S : List Inst)
    (ks : List Nat) (i : Nat) (h : NotCElim S i) :
    NotCElim (runIdx cb S ks) i := by
  induction ks generalizing S with
  | nil => exact h
  | cons k ks ih => exact ih _ (step_NotCElim_stable cb S k i h)

end PassC7

/-- C7 (amended): the dead-flag elimination performed by
`A32ConstantMemoryReads` exists only for the C flag: (1) an `A32SetCFlag`
whose argument is the value of an `A32GetCFlag` is invalidated; (2) N/Z/V
flag sets are never invalidated by this pass; and (3) an `A32SetCFlag`
whose argument is the value of any other instruction (in particular an
arithmetic one) is never invalidated. -/
theorem dead_flag_elimination_cflag_only (cb : UserCallbacks) (L : List Inst)
    (i j : Nat) (inst target : Inst) (hL : L[i]? = some inst) :
    (inst.op = .a32SetCFlag → inst.args.head? = some (.instRef j) →
        L[j]? = some target → target.op = .a32GetCFlag →
        (a32ConstantMemoryReads cb L)[i]? = some invalidatedInst)
    ∧ ((inst.op = .a32SetNFlag ∨ inst.op = .a32SetZFlag ∨ inst.op = .a32SetVFlag) →
        ((a32ConstantMemoryReads cb L)[i]?).map Inst.op = some inst.op)
    ∧ (inst.op = .a32SetCFlag → inst.args.head? = some (.instRef j) →
        L[j]? = some target → target.op ≠ .a32GetCFlag →
        ((a32ConstantMemoryReads cb L)[i]?).map Inst.op = some .a32SetCFlag) := by
  have hlen : i < L.length := (List.getElem?_eq_some.mp hL).fst
  refine ⟨?_, ?_, ?_⟩
  · intro hop hhead hTgt hg
    have hC : CElim L i := ⟨inst, j, target, hL, hop, hhead, hTgt, hg⟩
    rw [a32ConstantMemoryReads_eq_runIdx,
      runIdx_range_split cb L L.length i hlen]
    rcases runIdx_CElim_stable cb L (List.range i) i hC with hC' | hInv
    · exact runIdx_invalidated_stable cb _ _ i (step_at_CElim cb _ i hC')
    · exact runIdx_invalidated_stable cb _ _ i
        (step_invalidated_stable cb _ i i hInv)
  · intro hop
    rcases runIdx_opAt cb L (List.range L.length) i with h | ⟨h1, h2⟩
    · rw [a32ConstantMemoryReads_eq_runIdx, h, hL]
      rfl
    · rw [hL] at h1
      simp only [Option.map_some', Option.some.injEq] at h1
      rcases hop with h' | h' | h' <;> rw [h'] at h1 <;> cases h1
  · intro hop hhead hTgt htne
    have hP : NotCElim L i := by
      constructor
      · rw [hL]; simp [hop]
      · intro inst' j' hL' hh'
        rw [hL] at hL'
        injection hL' with he
        rw [← he] at hh'
        rw [hhead] at hh'
        injection hh' with hv
        injection hv with hjj
        subst hjj
        rw [hTgt]
        simpa using htne
    have := runIdx_NotCElim_stable cb L (List.range L.length) i hP
    rw [a32ConstantMemoryReads_eq_runIdx]
    exact this.1

/-- C7 witness: in the block `[A32GetCFlag; A32SetCFlag(#0); A32GetNFlag;
A32SetNFlag(#2); Add32; A32SetCFlag(#4)]` the C-flag set fed by the
C-flag get is invalidated, the N-flag set survives, and the C-flag set fed
by the arithmetic instruction survives. -/
theorem dead_flag_elimination_cflag_only_witness :
    (a32ConstantMemoryReads trivialCallbacks
        [⟨.a32GetCFlag, []⟩, ⟨.a32SetCFlag, [.instRef 0]⟩,
         ⟨.a32GetNFlag, []⟩, ⟨.a32SetNFlag, [.instRef 2]⟩,
         ⟨.add32, [.imm .u32 1, .imm .u32 2]⟩,
         ⟨.a32SetCFlag, [.instRef 4]⟩])[1]? = some invalidatedInst
    ∧ ((a32ConstantMemoryReads trivialCallbacks
        [⟨.a32GetCFlag, []⟩, ⟨.a32SetCFlag, [.instRef 0]⟩,
         ⟨.a32GetNFlag, []⟩, ⟨.a32SetNFlag, [.instRef 2]⟩,
         ⟨.add32, [.imm .u32 1, .imm .u32 2]⟩,
         ⟨.a32SetCFlag, [.instRef 4]⟩])[3]?).map Inst.op
        = some .a32SetNFlag
    ∧ ((a32ConstantMemoryReads trivialCallbacks
        [⟨.a32GetCFlag, []⟩, ⟨.a32SetCFlag, [.instRef 0]⟩,
         ⟨.a32GetNFlag, []⟩, ⟨.a32SetNFlag, [.instRef 2]⟩,
         ⟨.add32, [.imm .u32 1, .imm .u32 2]⟩,
         ⟨.a32SetCFlag, [.instRef 4]⟩])[5]?).map Inst.op
        = some .a32SetCFlag := by
  refine ⟨(dead_flag_elimination_cflag_only trivialCallbacks _ 1 0
      ⟨.a32SetCFlag, [.instRef 0]⟩ ⟨.a32GetCFlag, []⟩ (by decide)).1
      rfl rfl (by decide) rfl,
    ?_, ?_⟩
  · have h := (dead_flag_elimination_cflag_only trivialCallbacks
      [⟨.a32GetCFlag, []⟩, ⟨.a32SetCFlag, [.instRef 0]⟩,
       ⟨.a32GetNFlag, []⟩, ⟨.a32SetNFlag, [.instRef 2]⟩,
       ⟨.add32, [.imm .u32 1, .imm .u32 2]⟩,
       ⟨.a32SetCFlag, [.instRef 4]⟩] 3 2
      ⟨.a32SetNFlag, [.instRef 2]⟩ ⟨.a32GetNFlag, []⟩ (by decide)).2.1
      (Or.inl rfl)
    exact h
  · have h := (dead_flag_elimination_cflag_only trivialCallbacks
      [⟨.a32GetCFlag, []⟩, ⟨.a32SetCFlag, [.instRef 0]⟩,
       ⟨.a32GetNFlag, []⟩, ⟨.a32SetNFlag, [.instRef 2]⟩,
       ⟨.add32, [.imm .u32 1, .imm .u32 2]⟩,
       ⟨.a32SetCFlag, [.instRef 4]⟩] 5 4
      ⟨.a32SetCFlag, [.instRef 4]⟩ ⟨.add32, [.imm .u32 1, .imm .u32 2]⟩
      (by decide)).2.2 rfl rfl (by decide) (by decide)
    exact h

section PassC6

/-- A read instruction at `j` that the pass folds: all arguments immediate
and the address read-only. -/
def foldableB (cb : UserCallbacks) (L : List Inst) (j : Nat) : Bool :=
  match L[j]? with
  | some inst => inst.op.isReadMemory && inst.areAllArgsImmediates
      && cb.isReadOnlyMemory ((inst.args.headD (.imm .u32 0)).getU32)
  | none => false

/-- The literal the pass substitutes for the read at `j`. -/
def litOf (cb : UserCallbacks) (L : List Inst) (j : Nat) : Value :=
  match L[j]? with
  | some inst => readLiteral cb inst.op ((inst.args.headD (.imm .u32 0)).getU32)
  | none => .imm .u32 0

/-- Substitution of the reads already folded (those below `k`). -/
def substBelow (cb : UserCallbacks) (L : List Inst) (k : Nat) : Value → Value
  | .instRef j =>
      if j < k ∧ foldableB cb L j = true then litOf cb L j else .instRef j
  | v => v

/-- Whether the instruction at `j` (if any) is an `A32GetCFlag`. -/
def targetGetCFlag (L : List Inst) (j : Nat) : Bool :=
  match L[j]? with
  | some target => decide (target.op = .a32GetCFlag)
  | none => false

/-- Whether a head argument references an `A32GetCFlag` instruction. -/
def headTargetsGetCFlag (L : List Inst) : Option Value → Bool
  | some (.instRef j) => targetGetCFlag L j
  | _ => false

/-- The dead-C-flag condition of the pass, on the original block. -/
def invalidCondB (L : List Inst) (inst : Inst) : Bool :=
  decide (inst.op = .a32SetCFlag) && headTargetsGetCFlag L inst.args.head?

/-- The instruction at `i` after the pass has processed indices `< k`. -/
def midInst (cb : UserCallbacks) (L : List Inst) (k i : Nat) (inst : Inst) :
    Inst :=
  if invalidCondB L inst = true ∧ i < k then invalidatedInst
  else ⟨inst.op, inst.args.map (substBelow cb L k)⟩

/-- The block after the pass has processed indices `< k`. -/
def midState (cb : UserCallbacks) (L : List Inst) (k : Nat) : List Inst :=
  (List.range L.length).map
    (fun i => midInst cb L k i (L[i]?.getD invalidatedInst))

/-- Whether the instruction at `j` (if any) is a memory read. -/
def opReadAt (L : List Inst) (j : Nat) : Bool :=
  match L[j]? with
  | some t => t.op.isReadMemory
  | none => false

/-- A value that is not a reference to a memory-read instruction. -/
def refNotReadB (L : List Inst) : Value → Bool
  | .instRef j => !opReadAt L j
  | _ => true

/-- One instruction of the no-chained-reads condition. -/
def instNoChainB (L : List Inst) (oi : Option Inst) : Bool :=
  match oi with
  | some inst => !inst.op.isReadMemory || inst.args.all (refNotReadB L)
  | none => true

/-- No memory read's argument references a memory read (no chained reads). -/
def noChainB (L : List Inst) : Bool :=
  (List.range L.length).all fun i => instNoChainB L L[i]?

theorem substBelow_imm (cb : UserCallbacks) (L : List Inst) (k : Nat)
    (ty : IRType) (v : Nat) : substBelow cb L k (.imm ty v) = .imm ty v := rfl

theorem substBelow_instRef (cb : UserCallbacks) (L : List Inst) (k j : Nat) :
    substBelow cb L k (.instRef j)
      = if j < k ∧ foldableB cb L j = true then litOf cb L j else .instRef j :=
  rfl

theorem foldableB_def (cb : UserCallbacks) (L : List Inst) (j : Nat)
    (inst : Inst) (h : L[j]? = some inst) :
    foldableB cb L j
      = (inst.op.isReadMemory && inst.areAllArgsImmediates
          && cb.isReadOnlyMemory ((inst.args.headD (.imm .u32 0)).getU32)) := by
  unfold foldableB
  rw [h]

theorem foldableB_lt (cb : UserCallbacks) (L : List Inst) (j : Nat)
    (h : foldableB cb L j = true) : j < L.length := by
  unfold foldableB at h
  split at h
  · rename_i inst hj
    exact (List.getElem?_eq_some.mp hj).fst
  · cases h

theorem litOf_shape (cb : UserCallbacks) (L : List Inst) (j : Nat) :
    ∃ ty v, litOf cb L j = .imm ty v := by
  unfold litOf
  split
  · rename_i inst hj
    unfold readLiteral
    cases inst.op <;> exact ⟨_, _, rfl⟩
  · exact ⟨_, _, rfl⟩

theorem invalidCondB_false_of_op (L : List Inst) (inst : Inst)
    (h : inst.op ≠ .a32SetCFlag) : invalidCondB L inst = false := by
  unfold invalidCondB
  simp [h]

theorem midState_length (cb : UserCallbacks) (L : List Inst) (k : Nat) :
    (midState cb L k).length = L.length := by
  simp [midState]

theorem getElem?_midState (cb : UserCallbacks) (L : List Inst) (k i : Nat)
    (h : i < L.length) :
    (midState cb L k)[i]?
      = some (midInst cb L k i (L[i]?.getD invalidatedInst)) := by
  unfold midState
  rw [List.getElem?_map, List.getElem?_range h]
  rfl

theorem midState_zero (cb : UserCallbacks) (L : List Inst) :
    midState cb L 0 = L := by
  apply List.ext_getElem?
  intro i
  by_cases h : i < L.length
  · rw [getElem?_midState cb L 0 i h, List.getElem?_eq_getElem h]
    unfold midInst
    rw [if_neg (fun hh => Nat.not_lt_zero i hh.2)]
    have hargs : (L[i].args).map (substBelow cb L 0) = L[i].args := by
      calc (L[i].args).map (substBelow cb L 0)
          = (L[i].args).map id := by
            apply List.map_congr_left
            intro v _
            cases v with
            | imm ty w => rfl
            | instRef j => simp [substBelow_instRef]
        _ = L[i].args := List.map_id _
    simp only [Option.getD_some]
    rw [hargs]
  · rw [List.getElem?_eq_none (by rw [midState_length]; omega),
      List.getElem?_eq_none (by omega)]

end PassC6

section PassC6Step

/-- Propositional form of `noChainB`. -/
def NoChain (L : List Inst) : Prop :=
  ∀ (i : Nat) (inst : Inst), L[i]? = some inst → inst.op.isReadMemory = true →
    ∀ (j : Nat), Value.instRef j ∈ inst.args →
      ∀ (t : Inst), L[j]? = some t → t.op.isReadMemory = false

theorem noChainB_spec (L : List Inst) (h : noChainB L = true) : NoChain L := by
  intro i inst hL hread j hj t ht
  have hi : i < L.length := (List.getElem?_eq_some.mp hL).fst
  have h2 := List.all_eq_true.mp h i (List.mem_range.mpr hi)
  rw [hL] at h2
  rw [show instNoChainB L (some inst)
      = (!inst.op.isReadMemory || inst.args.all (refNotReadB L)) from rfl] at h2
  rcases Bool.or_eq_true _ _ |>.mp h2 with h' | h'
  · rw [hread] at h'
    cases h'
  · have h3 := List.all_eq_true.mp h' _ hj
    rw [show refNotReadB L (Value.instRef j) = !opReadAt L j from rfl,
      show opReadAt L j = t.op.isReadMemory from by unfold opReadAt; rw [ht]]
      at h3
    simpa using h3

theorem substBelow_succ (cb : UserCallbacks) (L : List Inst) (k : Nat)
    (hfold : foldableB cb L k = false) (v : Value) :
    substBelow cb L (k + 1) v = substBelow cb L k v := by
  cases v with
  | imm ty w => rfl
  | instRef j =>
    rw [substBelow_instRef, substBelow_instRef]
    by_cases hjk : j = k
    · subst hjk
      rw [if_neg (fun hh => by rw [hfold] at hh; cases hh.2),
        if_neg (fun hh => by rw [hfold] at hh; cases hh.2)]
    · by_cases hj : j < k ∧ foldableB cb L j = true
      · rw [if_pos ⟨by omega, hj.2⟩, if_pos hj]
      · rw [if_neg (fun hh => hj ⟨by omega, hh.2⟩), if_neg hj]

/-- If index `k` neither folds nor invalidates, processing it leaves the
mid-state unchanged. -/
theorem midState_succ_eq (cb : UserCallbacks) (L : List Inst) (k : Nat)
    (hfold : foldableB cb L k = false)
    (hinv : ∀ inst, L[k]? = some inst → invalidCondB L inst = false) :
    midState cb L (k + 1) = midState cb L k := by
  unfold midState
  apply List.map_congr_left
  intro i hi
  have hi' : i < L.length := List.mem_range.mp hi
  unfold midInst
  have hsub : ∀ args : List Value,
      args.map (substBelow cb L (k+1)) = args.map (substBelow cb L k) :=
    fun args => List.map_congr_left (fun v _ => substBelow_succ cb L k hfold v)
  by_cases hik : i = k
  · subst hik
    have hLk : L[i]? = some L[i] := List.getElem?_eq_getElem hi'
    rw [hLk]
    simp only [Option.getD_some]
    rw [if_neg (fun hh => by rw [hinv _ hLk] at hh; cases hh.1),
      if_neg (fun hh => by rw [hinv _ hLk] at hh; cases hh.1), hsub]
  · by_cases hc : invalidCondB L (L[i]?.getD invalidatedInst) = true ∧ i < k
    · rw [if_pos ⟨hc.1, by omega⟩, if_pos hc]
    · rw [if_neg (fun hh => hc ⟨hh.1, by
        rcases Nat.lt_succ_iff_lt_or_eq.mp hh.2 with h' | h'
        · exact h'
        · exact absurd h' hik⟩), if_neg hc, hsub]

/-- If index `k` satisfies the dead-C-flag condition, processing it
invalidates exactly entry `k` of the mid-state. -/
theorem midState_succ_invalidate (cb : UserCallbacks) (L : List Inst) (k : Nat)
    (hk : k < L.length) (inst : Inst) (hLk : L[k]? = some inst)
    (hinv : invalidCondB L inst = true)
    (hfold : foldableB cb L k = false) :
    midState cb L (k + 1) = (midState cb L k).set k invalidatedInst := by
  apply List.ext_getElem?
  intro i
  by_cases hi : i < L.length
  · by_cases hik : i = k
    · rw [hik, getElem?_midState cb L (k+1) k hk,
        List.getElem?_set_self (by rw [midState_length]; omega), hLk]
      simp only [Option.getD_some]
      unfold midInst
      rw [if_pos ⟨hinv, by omega⟩]
    · rw [getElem?_midState cb L (k+1) i hi,
        List.getElem?_set_ne (by omega), getElem?_midState cb L k i hi]
      unfold midInst
      have hsub : ∀ args : List Value,
          args.map (substBelow cb L (k+1)) = args.map (substBelow cb L k) :=
        fun args => List.map_congr_left (fun v _ => substBelow_succ cb L k hfold v)
      by_cases hc : invalidCondB L (L[i]?.getD invalidatedInst) = true ∧ i < k
      · rw [if_pos ⟨hc.1, by omega⟩, if_pos hc]
      · rw [if_neg (fun hh => hc ⟨hh.1, by
          rcases Nat.lt_succ_iff_lt_or_eq.mp hh.2 with h' | h'
          · exact h'
          · exact absurd h' hik⟩), if_neg hc, hsub]
  · rw [List.getElem?_eq_none (by rw [midState_length]; omega),
      List.getElem?_eq_none (by rw [List.length_set, midState_length]; omega)]

/-- If the read at `k` is foldable, processing it replaces its uses
throughout the mid-state. -/
theorem midState_succ_fold (cb : UserCallbacks) (L : List Inst) (k : Nat)
    (hfold : foldableB cb L k = true) :
    midState cb L (k + 1)
      = replaceUsesWith k (litOf cb L k) (midState cb L k) := by
  obtain ⟨instk, hLk, hread, hallimm, hro⟩ : ∃ inst, L[k]? = some inst
      ∧ inst.op.isReadMemory = true ∧ inst.areAllArgsImmediates = true
      ∧ cb.isReadOnlyMemory ((inst.args.headD (.imm .u32 0)).getU32) = true := by
    have hfold' := hfold
    unfold foldableB at hfold'
    split at hfold'
    · rename_i inst hj
      rw [Bool.and_eq_true, Bool.and_eq_true] at hfold'
      exact ⟨inst, hj, hfold'.1.1, hfold'.1.2, hfold'.2⟩
    · cases hfold'
  apply List.ext_getElem?
  intro i
  by_cases hi : i < L.length
  · rw [getElem?_midState cb L (k+1) i hi, getElem?_replaceUsesWith,
      getElem?_midState cb L k i hi]
    simp only [Option.map_some']
    unfold midInst
    have hsub : ∀ v : Value,
        substVal k (litOf cb L k) (substBelow cb L k v)
          = substBelow cb L (k + 1) v := by
      intro v
      cases v with
      | imm ty w => rfl
      | instRef j =>
        rw [substBelow_instRef, substBelow_instRef]
        by_cases hj : j < k ∧ foldableB cb L j = true
        · rw [if_pos hj, if_pos ⟨by omega, hj.2⟩]
          obtain ⟨ty, w, hlit⟩ := litOf_shape cb L j
          rw [hlit, substVal_imm]
        · rw [if_neg hj]
          by_cases hjk : j = k
          · subst hjk
            rw [substVal_instRef, if_pos rfl, if_pos ⟨by omega, hfold⟩]
          · rw [substVal_instRef, if_neg hjk,
              if_neg (fun hh => hj ⟨by omega, hh.2⟩)]
    have hcondk : invalidCondB L instk = false :=
      invalidCondB_false_of_op L instk
        (fun hop => by rw [hop] at hread; cases hread)
    by_cases hc : invalidCondB L (L[i]?.getD invalidatedInst) = true ∧ i < k
    · rw [if_pos hc, if_pos ⟨hc.1, by omega⟩]
      rfl
    · have hc' : ¬(invalidCondB L (L[i]?.getD invalidatedInst) = true ∧ i < k + 1) := by
        intro hh
        rcases Nat.lt_succ_iff_lt_or_eq.mp hh.2 with h' | h'
        · exact hc ⟨hh.1, h'⟩
        · subst h'
          rw [hLk] at hh
          simp only [Option.getD_some] at hh
          rw [hcondk] at hh
          cases hh.1
      rw [if_neg hc, if_neg hc']
      simp only [Option.some.injEq, Inst.mk.injEq, true_and, List.map_map]
      exact (List.map_congr_left (fun v _ => hsub v)).symm
  · rw [List.getElem?_eq_none (by rw [midState_length]; omega),
      List.getElem?_eq_none
        (by rw [length_replaceUsesWith, midState_length]; omega)]

end PassC6Step

section PassC6Assembly

theorem Inst.op_mk (op : Opcode) (args : List Value) :
    (Inst.mk op args).op = op := rfl

theorem Inst.args_mk (op : Opcode) (args : List Value) :
    (Inst.mk op args).args = args := rfl

theorem targetGetCFlag_eq (L : List Inst) (j : Nat) (t : Inst)
    (h : L[j]? = some t) :
    targetGetCFlag L j = decide (t.op = .a32GetCFlag) := by
  unfold targetGetCFlag
  rw [h]

theorem targetGetCFlag_none (L : List Inst) (j : Nat) (h : L[j]? = none) :
    targetGetCFlag L j = false := by
  unfold targetGetCFlag
  rw [h]

theorem invalidCondB_true_op (L : List Inst) (inst : Inst)
    (h : invalidCondB L inst = true) : inst.op = .a32SetCFlag := by
  unfold invalidCondB at h
  rw [Bool.and_eq_true] at h
  exact of_decide_eq_true h.1

theorem read_op_ne_getCFlag (t : Inst) (h : t.op.isReadMemory = true) :
    t.op ≠ .a32GetCFlag := by
  intro he
  rw [he] at h
  cases h

theorem foldableB_spec (cb : UserCallbacks) (L : List Inst) (j : Nat)
    (h : foldableB cb L j = true) :
    ∃ inst, L[j]? = some inst ∧ inst.op.isReadMemory = true
      ∧ inst.areAllArgsImmediates = true
      ∧ cb.isReadOnlyMemory ((inst.args.headD (.imm .u32 0)).getU32) = true := by
  unfold foldableB at h
  split at h
  · rename_i inst hj
    rw [Bool.and_eq_true, Bool.and_eq_true] at h
    exact ⟨inst, hj, h.1.1, h.1.2, h.2⟩
  · cases h

/-- Evaluating the loop body when the instruction at its index is known. -/
theorem stepInst_eq_of_get (cb : UserCallbacks) (S : List Inst) (k : Nat)
    (inst : Inst) (h : S[k]? = some inst) :
    stepInst cb S k =
      if inst.op = .a32SetCFlag then
        match inst.args.head? with
        | some (.instRef j) =>
          (match S[j]? with
           | some target =>
             if target.op = .a32GetCFlag then S.set k invalidatedInst else S
           | none => S)
        | _ => S
      else if inst.op.isReadMemory then
        if inst.areAllArgsImmediates then
          if cb.isReadOnlyMemory ((inst.args.headD (.imm .u32 0)).getU32) then
            replaceUsesWith k
              (readLiteral cb inst.op ((inst.args.headD (.imm .u32 0)).getU32))
              S
          else S
        else S
      else S := by
  unfold stepInst
  rw [h]

end PassC6Assembly

/-- The decision the pass takes for an `A32SetCFlag` whose head argument
references instruction `j`, as a function of the block's entry at `j`. -/
def cflagDecision (S : List Inst) (k : Nat) (oj : Option Inst) : List Inst :=
  match oj with
  | some target =>
      if target.op = .a32GetCFlag then S.set k invalidatedInst else S
  | none => S

theorem cflagDecision_none (S : List Inst) (k : Nat) :
    cflagDecision S k none = S := rfl

theorem cflagDecision_some (S : List Inst) (k : Nat) (t : Inst) :
    cflagDecision S k (some t)
      = if t.op = .a32GetCFlag then S.set k invalidatedInst else S := rfl

theorem stepInst_setCFlag_none (cb : UserCallbacks) (S : List Inst) (k : Nat)
    (inst : Inst) (h : S[k]? = some inst) (hop : inst.op = .a32SetCFlag)
    (hh : inst.args.head? = none) : stepInst cb S k = S := by
  rw [stepInst_eq_of_get cb S k inst h, if_pos hop, hh]

theorem stepInst_setCFlag_imm (cb : UserCallbacks) (S : List Inst) (k : Nat)
    (inst : Inst) (ty : IRType) (w : Nat) (h : S[k]? = some inst)
    (hop : inst.op = .a32SetCFlag) (hh : inst.args.head? = some (.imm ty w)) :
    stepInst cb S k = S := by
  rw [stepInst_eq_of_get cb S k inst h, if_pos hop, hh]

theorem stepInst_setCFlag_instRef (cb : UserCallbacks) (S : List Inst)
    (k : Nat) (inst : Inst) (j : Nat) (h : S[k]? = some inst)
    (hop : inst.op = .a32SetCFlag) (hh : inst.args.head? = some (.instRef j)) :
    stepInst cb S k = cflagDecision S k S[j]? := by
  rw [stepInst_eq_of_get cb S k inst h, if_pos hop, hh]
  show (match S[j]? with
    | some target =>
        if target.op = .a32GetCFlag then S.set k invalidatedInst else S
    | none => S) = cflagDecision S k S[j]?
  cases S[j]? with
  | none => rfl
  | some t => rfl

/-- Processing index `k` of the mid-state advances it by one index, for
blocks without chained memory reads. -/
theorem stepInst_midState (cb : UserCallbacks) (L : List Inst)
    (hnc : NoChain L) (k : Nat) (hk : k < L.length) :
    stepInst cb (midState cb L k) k = midState cb L (k + 1) := by
  have hLk : L[k]? = some (L[k]) := List.getElem?_eq_getElem hk
  have hmid : (midState cb L k)[k]?
      = some ⟨(L[k]).op, (L[k]).args.map (substBelow cb L k)⟩ := by
    rw [getElem?_midState cb L k k hk, hLk]
    simp only [Option.getD_some]
    unfold midInst
    rw [if_neg (fun hh => Nat.lt_irrefl k hh.2)]
  by_cases hop : (L[k]).op = .a32SetCFlag
  · have hfoldk : foldableB cb L k = false := by
      rw [foldableB_def cb L k (L[k]) hLk, hop]
      rfl
    have hinvk : ∀ (hd : Bool), headTargetsGetCFlag L ((L[k]).args.head?) = hd →
        hd = false →
        ∀ inst', L[k]? = some inst' → invalidCondB L inst' = false := by
      intro hd hhd hdf inst' h'
      rw [hLk] at h'
      injection h' with he
      rw [← he]
      unfold invalidCondB
      rw [hhd, hdf, Bool.and_false]
    cases hh : (L[k]).args.head? with
    | none =>
      rw [stepInst_setCFlag_none cb _ k _ hmid hop
        (by rw [Inst.args_mk, List.head?_map, hh, Option.map_none'])]
      exact (midState_succ_eq cb L k hfoldk
        (hinvk false (by rw [hh]; rfl) rfl)).symm
    | some v =>
      cases v with
      | imm ty w =>
        rw [stepInst_setCFlag_imm cb _ k _ ty w hmid hop
          (by rw [Inst.args_mk, List.head?_map, hh, Option.map_some',
            substBelow_imm])]
        exact (midState_succ_eq cb L k hfoldk
          (hinvk false (by rw [hh]; rfl) rfl)).symm
      | instRef j =>
        by_cases hjf : j < k ∧ foldableB cb L j = true
        · obtain ⟨ty, w, hlit⟩ := litOf_shape cb L j
          rw [stepInst_setCFlag_imm cb _ k _ ty w hmid hop
            (by rw [Inst.args_mk, List.head?_map, hh, Option.map_some',
              substBelow_instRef, if_pos hjf, hlit])]
          obtain ⟨tj, hLj, hreadj, _, _⟩ := foldableB_spec cb L j hjf.2
          refine (midState_succ_eq cb L k hfoldk
            (hinvk _ (by rw [hh]) ?_)).symm
          rw [show headTargetsGetCFlag L (some (.instRef j))
              = targetGetCFlag L j from rfl,
            targetGetCFlag_eq L j tj hLj,
            decide_eq_false (read_op_ne_getCFlag tj hreadj)]
        · rw [stepInst_setCFlag_instRef cb _ k _ j hmid hop
            (by rw [Inst.args_mk, List.head?_map, hh, Option.map_some',
              substBelow_instRef, if_neg hjf])]
          by_cases hjlen : j < L.length
          · have hLj : L[j]? = some (L[j]) := List.getElem?_eq_getElem hjlen
            have hmidj : (midState cb L k)[j]?
                = some (midInst cb L k j (L[j])) := by
              rw [getElem?_midState cb L k j hjlen, hLj]
              rfl
            rw [hmidj, cflagDecision_some]
            by_cases hcj : invalidCondB L (L[j]) = true ∧ j < k
            · rw [show midInst cb L k j (L[j]) = invalidatedInst from by
                unfold midInst; rw [if_pos hcj]]
              rw [if_neg (show ¬(invalidatedInst.op = .a32GetCFlag) from
                by decide)]
              refine (midState_succ_eq cb L k hfoldk
                (hinvk _ (by rw [hh]) ?_)).symm
              rw [show headTargetsGetCFlag L (some (.instRef j))
                  = targetGetCFlag L j from rfl,
                targetGetCFlag_eq L j (L[j]) hLj,
                decide_eq_false (fun hg => by
                  rw [invalidCondB_true_op L (L[j]) hcj.1] at hg
                  cases hg)]
            · rw [show midInst cb L k j (L[j])
                  = ⟨(L[j]).op, (L[j]).args.map (substBelow cb L k)⟩ from by
                unfold midInst; rw [if_neg hcj]]
              by_cases hjget : (L[j]).op = .a32GetCFlag
              · rw [if_pos (show (⟨(L[j]).op,
                    (L[j]).args.map (substBelow cb L k)⟩ : Inst).op
                      = .a32GetCFlag from hjget)]
                refine (midState_succ_invalidate cb L k hk (L[k]) hLk ?_
                  hfoldk).symm
                unfold invalidCondB
                rw [hh, show headTargetsGetCFlag L (some (.instRef j))
                    = targetGetCFlag L j from rfl,
                  targetGetCFlag_eq L j (L[j]) hLj,
                  decide_eq_true hjget, decide_eq_true hop]
                rfl
              · rw [if_neg (show ¬((⟨(L[j]).op,
                    (L[j]).args.map (substBelow cb L k)⟩ : Inst).op
                      = .a32GetCFlag) from hjget)]
                refine (midState_succ_eq cb L k hfoldk
                  (hinvk _ (by rw [hh]) ?_)).symm
                rw [show headTargetsGetCFlag L (some (.instRef j))
                    = targetGetCFlag L j from rfl,
                  targetGetCFlag_eq L j (L[j]) hLj, decide_eq_false hjget]
          · have hmidj : (midState cb L k)[j]? = none := by
              rw [List.getElem?_eq_none]
              rw [midState_length]
              omega
            rw [hmidj, cflagDecision_none]
            refine (midState_succ_eq cb L k hfoldk
              (hinvk _ (by rw [hh]) ?_)).symm
            rw [show headTargetsGetCFlag L (some (.instRef j))
                = targetGetCFlag L j from rfl,
              targetGetCFlag_none L j (by rw [List.getElem?_eq_none]; omega)]
  · rw [stepInst_eq_of_get cb (midState cb L k) k _ hmid]
    simp only [Inst.op_mk, Inst.args_mk]
    rw [if_neg hop]
    have hinvk : ∀ inst', L[k]? = some inst' → invalidCondB L inst' = false := by
      intro inst' h'
      rw [hLk] at h'
      injection h' with he
      rw [← he]
      exact invalidCondB_false_of_op L (L[k]) hop
    by_cases hread : (L[k]).op.isReadMemory = true
    · rw [if_pos hread]
      have hargs_eq : (L[k]).args.map (substBelow cb L k) = (L[k]).args := by
        calc (L[k]).args.map (substBelow cb L k)
            = (L[k]).args.map id := by
              apply List.map_congr_left
              intro v hv
              cases v with
              | imm ty w => rfl
              | instRef j =>
                rw [substBelow_instRef, if_neg ?_]
                · rfl
                · rintro ⟨hjk, hjf⟩
                  obtain ⟨tj, hLj, hreadj, _, _⟩ := foldableB_spec cb L j hjf
                  have hchain := hnc k (L[k]) hLk hread j hv tj hLj
                  rw [hreadj] at hchain
                  cases hchain
          _ = (L[k]).args := List.map_id _
      rw [hargs_eq]
      by_cases hallimm : (L[k]).areAllArgsImmediates = true
      · rw [if_pos hallimm]
        by_cases hro :
            cb.isReadOnlyMemory (((L[k]).args.headD (.imm .u32 0)).getU32) = true
        · rw [if_pos hro]
          have hfoldk : foldableB cb L k = true := by
            rw [foldableB_def cb L k (L[k]) hLk, hread, hallimm, hro]
            rfl
          have hlit : litOf cb L k
              = readLiteral cb (L[k]).op
                  (((L[k]).args.headD (.imm .u32 0)).getU32) := by
            unfold litOf
            rw [hLk]
          rw [← hlit]
          exact (midState_succ_fold cb L k hfoldk).symm
        · rw [if_neg hro]
          have hfoldk : foldableB cb L k = false := by
            rw [foldableB_def cb L k (L[k]) hLk]
            have hb : cb.isReadOnlyMemory
                (((L[k]).args.headD (.imm .u32 0)).getU32) = false := by
              cases hx : cb.isReadOnlyMemory
                  (((L[k]).args.headD (.imm .u32 0)).getU32)
              · rfl
              · exact absurd hx hro
            rw [hb, Bool.and_false]
          exact (midState_succ_eq cb L k hfoldk hinvk).symm
      · rw [if_neg hallimm]
        have hfoldk : foldableB cb L k = false := by
          rw [foldableB_def cb L k (L[k]) hLk]
          have hb : (L[k]).areAllArgsImmediates = false := by
            cases hx : (L[k]).areAllArgsImmediates
            · rfl
            · exact absurd hx hallimm
          rw [hb, Bool.and_false, Bool.false_and]
        exact (midState_succ_eq cb L k hfoldk hinvk).symm
    · rw [if_neg hread]
      have hfoldk : foldableB cb L k = false := by
        rw [foldableB_def cb L k (L[k]) hLk]
        have hb : (L[k]).op.isReadMemory = false := by
          cases hx : (L[k]).op.isReadMemory
          · rfl
          · exact absurd hx hread
        rw [hb, Bool.false_and, Bool.false_and]
      exact (midState_succ_eq cb L k hfoldk hinvk).symm

theorem a32ConstantMemoryReads_eq_midState (cb : UserCallbacks)
    (L : List Inst) (hnc : NoChain L) :
    a32ConstantMemoryReads cb L = midState cb L L.length := by
  rw [a32ConstantMemoryReads_eq_runIdx]
  have h : ∀ k, k ≤ L.length → runIdx cb L (List.range k) = midState cb L k := by
    intro k
    induction k with
    | zero =>
      intro _
      rw [List.range_zero, runIdx_nil, midState_zero]
    | succ k ih =>
      intro hk
      rw [List.range_succ, runIdx_append, ih (by omega)]
      exact stepInst_midState cb L hnc k (by omega)
  exact h L.length le_rfl

/-- Substitution of all foldable reads' uses by their literals. -/
def substFoldable (cb : UserCallbacks) (L : List Inst) : Value → Value
  | .instRef j =>
      if foldableB cb L j = true then litOf cb L j else .instRef j
  | v => v

theorem substFoldable_imm (cb : UserCallbacks) (L : List Inst) (ty : IRType)
    (w : Nat) : substFoldable cb L (.imm ty w) = .imm ty w := rfl

theorem substFoldable_instRef (cb : UserCallbacks) (L : List Inst) (j : Nat) :
    substFoldable cb L (.instRef j)
      = if foldableB cb L j = true then litOf cb L j else .instRef j := rfl

/-- What the pass makes of one instruction of the original block: the
dead-C-flag sets are invalidated; in every other instruction, every
reference to a foldable read is replaced by the literal read through the
callback, and nothing else changes. -/
def foldSpecInst (cb : UserCallbacks) (L : List Inst) (inst : Inst) : Inst :=
  if invalidCondB L inst = true then invalidatedInst
  else ⟨inst.op, inst.args.map (substFoldable cb L)⟩

/-- C6 (amended): for every block without chained memory reads, the pass
replaces the uses of a `ReadMemoryN` instruction with the literal read
through the callback exactly when its address argument is an immediate and
`IsReadOnlyMemory` is true; every other instruction is unchanged apart
from that use replacement — except an `A32SetCFlag` whose argument is the
value of an `A32GetCFlag`, which this pass also invalidates. -/
theorem constant_memory_reads_characterization (cb : UserCallbacks)
    (L : List Inst) (hnc : noChainB L = true) (i : Nat) (inst : Inst)
    (hL : L[i]? = some inst) :
    (a32ConstantMemoryReads cb L)[i]? = some (foldSpecInst cb L inst) := by
  have hi : i < L.length := (List.getElem?_eq_some.mp hL).fst
  rw [a32ConstantMemoryReads_eq_midState cb L (noChainB_spec L hnc),
    getElem?_midState cb L L.length i hi, hL]
  simp only [Option.getD_some]
  unfold midInst foldSpecInst
  by_cases hc : invalidCondB L inst = true
  · rw [if_pos ⟨hc, hi⟩, if_pos hc]
  · rw [if_neg (fun hh => hc hh.1), if_neg hc]
    simp only [Option.some.injEq, Inst.mk.injEq, true_and]
    apply List.map_congr_left
    intro v _
    cases v with
    | imm ty w => rfl
    | instRef j =>
      rw [substBelow_instRef, substFoldable_instRef]
      by_cases hjf : foldableB cb L j = true
      · rw [if_pos ⟨foldableB_lt cb L j hjf, hjf⟩, if_pos hjf]
      · rw [if_neg (fun hh => hjf hh.2), if_neg hjf]

/-- C6 witness: the spec's scenario 2 — `LDR R1, [PC, #4]` reading the
read-only word 0xDEADBEEF at 0x1008; after the pass, the register write's
argument is the literal and the other instructions are untouched. -/
theorem constant_memory_reads_characterization_witness :
    noChainB [⟨.a32ReadMemory32, [.imm .u32 0x1008]⟩,
      ⟨.a32SetRegister, [.imm .u32 1, .instRef 0]⟩] = true
    ∧ (a32ConstantMemoryReads
        ⟨fun _ => true, fun _ => 0, fun _ => 0,
          fun a => if a = 0x1008 then 0xDEADBEEF else 0, fun _ => 0⟩
        [⟨.a32ReadMemory32, [.imm .u32 0x1008]⟩,
         ⟨.a32SetRegister, [.imm .u32 1, .instRef 0]⟩])[1]?
      = some ⟨.a32SetRegister, [.imm .u32 1, .imm .u32 0xDEADBEEF]⟩ := by
  refine ⟨by decide, ?_⟩
  have h := constant_memory_reads_characterization
    ⟨fun _ => true, fun _ => 0, fun _ => 0,
      fun a => if a = 0x1008 then 0xDEADBEEF else 0, fun _ => 0⟩
    [⟨.a32ReadMemory32, [.imm .u32 0x1008]⟩,
     ⟨.a32SetRegister, [.imm .u32 1, .instRef 0]⟩]
    (by decide) 1 ⟨.a32SetRegister, [.imm .u32 1, .instRef 0]⟩ (by decide)
  rw [h]
  decide

section PassC8

/-- A value referencing only instructions below `i`. -/
def refLTB (i : Nat) : Value → Bool
  | .instRef j => decide (j < i)
  | _ => true

/-- One instruction of the SSA well-formedness condition. -/
def instWFB (i : Nat) (oi : Option Inst) : Bool :=
  match oi with
  | some inst => inst.args.all (refLTB i)
  | none => true

/-- The block invariant of the IR data model: every value reference points
to an earlier instruction of the same block. -/
def wellFormedB (L : List Inst) : Bool :=
  (List.range L.length).all fun i => instWFB i L[i]?

/-- Propositional form of `wellFormedB`. -/
def WFP (L : List Inst) : Prop :=
  ∀ (i : Nat) (inst : Inst), L[i]? = some inst →
    ∀ (j : Nat), Value.instRef j ∈ inst.args → j < i

theorem wellFormedB_spec (L : List Inst) (h : wellFormedB L = true) : WFP L := by
  intro i inst hL j hj
  have hi : i < L.length := (List.getElem?_eq_some.mp hL).fst
  have h2 := List.all_eq_true.mp h i (List.mem_range.mpr hi)
  rw [hL] at h2
  rw [show instWFB i (some inst) = inst.args.all (refLTB i) from rfl] at h2
  have h3 := List.all_eq_true.mp h2 _ hj
  rw [show refLTB i (Value.instRef j) = decide (j < i) from rfl] at h3
  exact of_decide_eq_true h3

theorem invalidatedInst_args : invalidatedInst.args = [] := rfl

theorem step_WFP (cb : UserCallbacks) (S : List Inst) (k : Nat)
    (h : WFP S) : WFP (stepInst cb S k) := by
  rcases stepInst_spec cb S k with hs
    | ⟨inst, j, t, hk, hop, hh, hj, hg, hs⟩
    | ⟨inst, hk, hr, ha, hro, hs⟩
  · rw [hs]; exact h
  · rw [hs]
    intro i inst' hI j' hj'
    by_cases hik : i = k
    · rw [hik, List.getElem?_set_self ((List.getElem?_eq_some.mp hk).fst)] at hI
      injection hI with he
      rw [← he, invalidatedInst_args] at hj'
      cases hj'
    · rw [List.getElem?_set_ne (by omega)] at hI
      exact h i inst' hI j' hj'
  · rw [hs]
    intro i inst' hI j' hj'
    rw [getElem?_replaceUsesWith] at hI
    cases hSi : S[i]? with
    | none => rw [hSi] at hI; cases hI
    | some inst0 =>
      rw [hSi] at hI
      injection hI with he
      have hargs : inst'.args = inst0.args.map (substVal k (readLiteral cb
          inst.op ((inst.args.headD (.imm .u32 0)).getU32))) := by
        rw [← he]
      rw [hargs] at hj'
      obtain ⟨v, hv, hve⟩ := List.mem_map.mp hj'
      cases v with
      | imm ty w => exact Value.noConfusion hve
      | instRef j0 =>
        rw [substVal_instRef] at hve
        by_cases hj0k : j0 = k
        · rw [if_pos hj0k] at hve
          exact absurd hve (readLiteral_ne_instRef cb inst.op
            ((inst.args.headD (.imm .u32 0)).getU32) _)
        · rw [if_neg hj0k] at hve
          injection hve with hjj
          exact hjj ▸ h i inst0 hSi j0 hv

theorem runIdx_WFP (cb : UserCallbacks) (S : List Inst) (ks : List Nat)
    (h : WFP S) : WFP (runIdx cb S ks) := by
  induction ks generalizing S with
  | nil => exact h
  | cons k ks ih => exact ih _ (step_WFP cb S k h)

/-- Entries below the processed index are frozen: processing index `k`
never changes entry `i < k` of a well-formed block. -/
theorem step_frozen (cb : UserCallbacks) (S : List Inst) (k i : Nat)
    (h : WFP S) (hik : i < k) : (stepInst cb S k)[i]? = S[i]? := by
  rcases stepInst_spec cb S k with hs
    | ⟨inst, j, t, hk, hop, hh, hj, hg, hs⟩
    | ⟨inst, hk, hr, ha, hro, hs⟩
  · rw [hs]
  · rw [hs, List.getElem?_set_ne (by omega)]
  · rw [hs, getElem?_replaceUsesWith]
    cases hSi : S[i]? with
    | none => rfl
    | some inst0 =>
      simp only [Option.map_some', Option.some.injEq]
      have hargs : inst0.args.map (substVal k (readLiteral cb inst.op
          ((inst.args.headD (.imm .u32 0)).getU32))) = inst0.args := by
        calc inst0.args.map (substVal k (readLiteral cb inst.op
              ((inst.args.headD (.imm .u32 0)).getU32)))
            = inst0.args.map id := by
              apply List.map_congr_left
              intro v hv
              cases v with
              | imm ty w => rfl
              | instRef j0 =>
                rw [substVal_instRef,
                  if_neg (by have := h i inst0 hSi j0 hv; omega)]
                rfl
          _ = inst0.args := List.map_id _
      rw [hargs]

theorem runIdx_frozen (cb : UserCallbacks) (S : List Inst) (ks : List Nat)
    (i : Nat) (h : WFP S) (hall : ∀ k ∈ ks, i < k) :
    (runIdx cb S ks)[i]? = S[i]? := by
  induction ks generalizing S with
  | nil => rfl
  | cons k ks ih =>
    rw [runIdx_cons, ih (stepInst cb S k) (step_WFP cb S k h)
      (fun k' hk' => hall k' (List.mem_cons_of_mem k hk'))]
    exact step_frozen cb S k i h (hall k (List.mem_cons_self k ks))

/-- `OUT[i]` equals the entry produced at step `i` itself. -/
theorem out_entry (cb : UserCallbacks) (L : List Inst) (i : Nat)
    (h : WFP L) (hi : i < L.length) :
    (a32ConstantMemoryReads cb L)[i]?
      = (stepInst cb (runIdx cb L (List.range i)) i)[i]? := by
  rw [a32ConstantMemoryReads_eq_runIdx,
    runIdx_range_split cb L L.length i hi]
  apply runIdx_frozen
  · exact step_WFP cb _ i (runIdx_WFP cb L (List.range i) h)
  · intro k hk
    obtain ⟨x, _, hx⟩ := List.mem_map.mp hk
    omega

/-- No instruction of the block references instruction `i`. -/
def NoRefs (S : List Inst) (i : Nat) : Prop :=
  ∀ (m : Nat) (inst : Inst), S[m]? = some inst → Value.instRef i ∉ inst.args

theorem replaceUsesWith_noRefs_self (i : Nat) (lit : Value) (S : List Inst)
    (hlit : ∀ j, lit ≠ .instRef j) : NoRefs (replaceUsesWith i lit S) i := by
  intro m inst hm hmem
  rw [getElem?_replaceUsesWith] at hm
  cases hS : S[m]? with
  | none => rw [hS] at hm; cases hm
  | some inst0 =>
    rw [hS] at hm
    injection hm with he
    have hargs : inst.args = inst0.args.map (substVal i lit) := by rw [← he]
    rw [hargs] at hmem
    obtain ⟨v, _, hve⟩ := List.mem_map.mp hmem
    cases v with
    | imm ty w => exact Value.noConfusion hve
    | instRef j0 =>
      rw [substVal_instRef] at hve
      by_cases hj0 : j0 = i
      · rw [if_pos hj0] at hve
        exact hlit i hve
      · rw [if_neg hj0] at hve
        injection hve with hjj
        exact hj0 hjj

theorem step_noRefs_stable (cb : UserCallbacks) (S : List Inst) (k i : Nat)
    (h : NoRefs S i) : NoRefs (stepInst cb S k) i := by
  rcases stepInst_spec cb S k with hs
    | ⟨inst, j, t, hk, hop, hh, hj, hg, hs⟩
    | ⟨inst, hk, hr, ha, hro, hs⟩
  · rw [hs]; exact h
  · rw [hs]
    intro m inst' hm hmem
    by_cases hmk : m = k
    · rw [hmk, List.getElem?_set_self ((List.getElem?_eq_some.mp hk).fst)] at hm
      injection hm with he
      rw [← he, invalidatedInst_args] at hmem
      cases hmem
    · rw [List.getElem?_set_ne (by omega)] at hm
      exact h m inst' hm hmem
  · rw [hs]
    intro m inst' hm hmem
    rw [getElem?_replaceUsesWith] at hm
    cases hS : S[m]? with
    | none => rw [hS] at hm; cases hm
    | some inst0 =>
      rw [hS] at hm
      injection hm with he
      have hargs : inst'.args = inst0.args.map (substVal k (readLiteral cb
          inst.op ((inst.args.headD (.imm .u32 0)).getU32))) := by
        rw [← he]
      rw [hargs] at hmem
      obtain ⟨v, hv, hve⟩ := List.mem_map.mp hmem
      cases v with
      | imm ty w => exact Value.noConfusion hve
      | instRef j0 =>
        rw [substVal_instRef] at hve
        by_cases hj0k : j0 = k
        · rw [if_pos hj0k] at hve
          exact absurd hve (readLiteral_ne_instRef cb inst.op
            ((inst.args.headD (.imm .u32 0)).getU32) _)
        · rw [if_neg hj0k] at hve
          injection hve with hjj
          exact h m inst0 hS (hjj ▸ hv)

theorem runIdx_noRefs_stable (cb : UserCallbacks) (S : List Inst)
    (ks : List Nat) (i : Nat) (h : NoRefs S i) :
    NoRefs (runIdx cb S ks) i := by
  induction ks generalizing S with
  | nil => exact h
  | cons k ks ih => exact ih _ (step_noRefs_stable cb S k i h)

theorem replaceUsesWith_eq_of_noRefs (i : Nat) (lit : Value) (S : List Inst)
    (h : NoRefs S i) : replaceUsesWith i lit S = S := by
  apply List.ext_getElem?
  intro m
  rw [getElem?_replaceUsesWith]
  cases hS : S[m]? with
  | none => rfl
  | some inst0 =>
    simp only [Option.map_some', Option.some.injEq]
    have hargs : inst0.args.map (substVal i lit) = inst0.args := by
      calc inst0.args.map (substVal i lit)
          = inst0.args.map id := by
            apply List.map_congr_left
            intro v hv
            cases v with
            | imm ty w => rfl
            | instRef j0 =>
              rw [substVal_instRef,
                if_neg (fun (hj0 : j0 = i) => h m inst0 hS (hj0 ▸ hv))]
              rfl
        _ = inst0.args := List.map_id _
    rw [hargs]

theorem readLiteral_not_instRef (cb : UserCallbacks) (op : Opcode)
    (vaddr : Nat) : ∀ j, readLiteral cb op vaddr ≠ .instRef j :=
  fun j => readLiteral_ne_instRef cb op vaddr j

theorem runIdx_fix (cb : UserCallbacks) (S : List Inst) (ks : List Nat)
    (h : ∀ k ∈ ks, stepInst cb S k = S) : runIdx cb S ks = S := by
  induction ks with
  | nil => rfl
  | cons k ks ih =>
    rw [runIdx_cons, h k (List.mem_cons_self k ks)]
    exact ih (fun k' hk' => h k' (List.mem_cons_of_mem k hk'))

end PassC8

/-- After the pass has run, processing any index again changes nothing. -/
theorem step_out_fix (cb : UserCallbacks) (L : List Inst) (hwf : WFP L)
    (i : Nat) (hi : i < L.length) :
    stepInst cb (a32ConstantMemoryReads cb L) i
      = a32ConstantMemoryReads cb L := by
  have hOUTlen : (a32ConstantMemoryReads cb L).length = L.length := by
    rw [a32ConstantMemoryReads_eq_runIdx]
    exact runIdx_length ..
  have hSilen : (runIdx cb L (List.range i)).length = L.length :=
    runIdx_length ..
  have hwfSi : WFP (runIdx cb L (List.range i)) := runIdx_WFP cb L _ hwf
  obtain ⟨sinst, hSi⟩ : ∃ sinst,
      (runIdx cb L (List.range i))[i]? = some sinst :=
    ⟨_, List.getElem?_eq_getElem (by rw [hSilen]; exact hi)⟩
  have hout := out_entry cb L i hwf hi
  have hdecomp : a32ConstantMemoryReads cb L
      = runIdx cb (stepInst cb (runIdx cb L (List.range i)) i)
          ((List.range (L.length - i - 1)).map (i + 1 + ·)) := by
    rw [a32ConstantMemoryReads_eq_runIdx]
    exact runIdx_range_split cb L L.length i hi
  by_cases hop : sinst.op = .a32SetCFlag
  · cases hh : sinst.args.head? with
    | none =>
      have hT := stepInst_setCFlag_none cb _ i sinst hSi hop hh
      have hOUTi : (a32ConstantMemoryReads cb L)[i]? = some sinst := by
        rw [hout, hT]
        exact hSi
      exact stepInst_setCFlag_none cb _ i sinst hOUTi hop hh
    | some v =>
      cases v with
      | imm ty w =>
        have hT := stepInst_setCFlag_imm cb _ i sinst ty w hSi hop hh
        have hOUTi : (a32ConstantMemoryReads cb L)[i]? = some sinst := by
          rw [hout, hT]
          exact hSi
        exact stepInst_setCFlag_imm cb _ i sinst ty w hOUTi hop hh
      | instRef j =>
        have hT := stepInst_setCFlag_instRef cb _ i sinst j hSi hop hh
        cases hSj : (runIdx cb L (List.range i))[j]? with
        | none =>
          have hjlen : L.length ≤ j := by
            by_contra hlt
            rw [List.getElem?_eq_getElem
              (by rw [hSilen]; omega)] at hSj
            cases hSj
          have hT' : stepInst cb (runIdx cb L (List.range i)) i
              = runIdx cb L (List.range i) := by
            rw [hT, hSj, cflagDecision_none]
          have hOUTi : (a32ConstantMemoryReads cb L)[i]? = some sinst := by
            rw [hout, hT']
            exact hSi
          have hOUTj : (a32ConstantMemoryReads cb L)[j]? = none :=
            List.getElem?_eq_none (by omega)
          rw [stepInst_setCFlag_instRef cb _ i sinst j hOUTi hop hh, hOUTj,
            cflagDecision_none]
        | some target =>
          by_cases hg : target.op = .a32GetCFlag
          · have hT' : stepInst cb (runIdx cb L (List.range i)) i
                = (runIdx cb L (List.range i)).set i invalidatedInst := by
              rw [hT, hSj, cflagDecision_some, if_pos hg]
            have hOUTi : (a32ConstantMemoryReads cb L)[i]?
                = some invalidatedInst := by
              rw [hout, hT',
                List.getElem?_set_self (by rw [hSilen]; exact hi)]
            rw [stepInst_eq_of_get cb _ i invalidatedInst hOUTi,
              if_neg (show ¬(invalidatedInst.op = .a32SetCFlag) from by decide),
              if_neg (show ¬(invalidatedInst.op.isReadMemory = true) from
                by decide)]
          · have hT' : stepInst cb (runIdx cb L (List.range i)) i
                = runIdx cb L (List.range i) := by
              rw [hT, hSj, cflagDecision_some, if_neg hg]
            have hOUTi : (a32ConstantMemoryReads cb L)[i]? = some sinst := by
              rw [hout, hT']
              exact hSi
            have hOUTrun : a32ConstantMemoryReads cb L
                = runIdx cb (runIdx cb L (List.range i))
                    ((List.range (L.length - i - 1)).map (i + 1 + ·)) := by
              rw [hdecomp, hT']
            have hjlen : j < (a32ConstantMemoryReads cb L).length := by
              have := (List.getElem?_eq_some.mp hSj).fst
              omega
            obtain ⟨t', ht'⟩ : ∃ t',
                (a32ConstantMemoryReads cb L)[j]? = some t' :=
              ⟨_, List.getElem?_eq_getElem hjlen⟩
            have htne : t'.op ≠ .a32GetCFlag := by
              rcases runIdx_opAt cb (runIdx cb L (List.range i))
                  ((List.range (L.length - i - 1)).map (i + 1 + ·)) j with
                hA | ⟨hB1, hB2⟩
              · rw [← hOUTrun, ht', hSj] at hA
                simp only [Option.map_some', Option.some.injEq] at hA
                rw [hA]
                exact hg
              · rw [← hOUTrun, ht'] at hB2
                simp only [Option.map_some', Option.some.injEq] at hB2
                rw [hB2]
                decide
            rw [stepInst_setCFlag_instRef cb _ i sinst j hOUTi hop hh, ht',
              cflagDecision_some, if_neg htne]
  · by_cases hread : sinst.op.isReadMemory = true
    · by_cases hallimm : sinst.areAllArgsImmediates = true
      · by_cases hro : cb.isReadOnlyMemory
            ((sinst.args.headD (.imm .u32 0)).getU32) = true
        · have hT : stepInst cb (runIdx cb L (List.range i)) i
              = replaceUsesWith i
                  (readLiteral cb sinst.op
                    ((sinst.args.headD (.imm .u32 0)).getU32))
                  (runIdx cb L (List.range i)) := by
            rw [stepInst_eq_of_get cb _ i sinst hSi, if_neg hop,
              if_pos hread, if_pos hallimm, if_pos hro]
          have hOUTi : (a32ConstantMemoryReads cb L)[i]? = some sinst := by
            rw [hout, hT, getElem?_replaceUsesWith, hSi]
            simp only [Option.map_some', Option.some.injEq]
            have hargs : sinst.args.map (substVal i (readLiteral cb sinst.op
                ((sinst.args.headD (.imm .u32 0)).getU32))) = sinst.args := by
              calc sinst.args.map (substVal i (readLiteral cb sinst.op
                    ((sinst.args.headD (.imm .u32 0)).getU32)))
                  = sinst.args.map id := by
                    apply List.map_congr_left
                    intro v hv
                    cases v with
                    | imm ty w => rfl
                    | instRef j0 =>
                      rw [substVal_instRef, if_neg (by
                        have := hwfSi i sinst hSi j0 hv
                        omega)]
                      rfl
                _ = sinst.args := List.map_id _
            rw [hargs]
          have hnoref : NoRefs (a32ConstantMemoryReads cb L) i := by
            rw [hdecomp]
            apply runIdx_noRefs_stable
            rw [hT]
            exact replaceUsesWith_noRefs_self i _ _
              (readLiteral_not_instRef cb sinst.op _)
          rw [stepInst_eq_of_get cb _ i sinst hOUTi, if_neg hop,
            if_pos hread, if_pos hallimm, if_pos hro]
          exact replaceUsesWith_eq_of_noRefs i _ _ hnoref
        · have hT : stepInst cb (runIdx cb L (List.range i)) i
              = runIdx cb L (List.range i) := by
            rw [stepInst_eq_of_get cb _ i sinst hSi, if_neg hop,
              if_pos hread, if_pos hallimm, if_neg hro]
          have hOUTi : (a32ConstantMemoryReads cb L)[i]? = some sinst := by
            rw [hout, hT]
            exact hSi
          rw [stepInst_eq_of_get cb _ i sinst hOUTi, if_neg hop,
            if_pos hread, if_pos hallimm, if_neg hro]
      · have hT : stepInst cb (runIdx cb L (List.range i)) i
            = runIdx cb L (List.range i) := by
          rw [stepInst_eq_of_get cb _ i sinst hSi, if_neg hop,
            if_pos hread, if_neg hallimm]
        have hOUTi : (a32ConstantMemoryReads cb L)[i]? = some sinst := by
          rw [hout, hT]
          exact hSi
        rw [stepInst_eq_of_get cb _ i sinst hOUTi, if_neg hop,
          if_pos hread, if_neg hallimm]
    · have hT : stepInst cb (runIdx cb L (List.range i)) i
          = runIdx cb L (List.range i) := by
        rw [stepInst_eq_of_get cb _ i sinst hSi, if_neg hop, if_neg hread]
      have hOUTi : (a32ConstantMemoryReads cb L)[i]? = some sinst := by
        rw [hout, hT]
        exact hSi
      rw [stepInst_eq_of_get cb _ i sinst hOUTi, if_neg hop, if_neg hread]

/-- C8: for every well-formed IR block (every value reference points to an
earlier instruction) and every callback — deterministic by construction, as
Lean functions — running `A32ConstantMemoryReads` twice produces the same
block as running it once. -/
theorem constant_memory_reads_idempotent (cb : UserCallbacks) (L : List Inst)
    (hwf : wellFormedB L = true) :
    a32ConstantMemoryReads cb (a32ConstantMemoryReads cb L)
      = a32ConstantMemoryReads cb L := by
  have hwf' := wellFormedB_spec L hwf
  have hOUTlen : (a32ConstantMemoryReads cb L).length = L.length := by
    rw [a32ConstantMemoryReads_eq_runIdx]
    exact runIdx_length ..
  rw [a32ConstantMemoryReads_eq_runIdx (cb) (a32ConstantMemoryReads cb L)]
  apply runIdx_fix
  intro k hk
  rw [List.mem_range, hOUTlen] at hk
  exact step_out_fix cb L hwf' k hk

/-- C8 witness: idempotence applied to the concrete well-formed block
`[ReadMemory32 #0x1008; SetRegister(#1, ref 0)]` with everything
read-only. -/
theorem constant_memory_reads_idempotent_witness :
    wellFormedB [⟨.a32ReadMemory32, [.imm .u32 0x1008]⟩,
      ⟨.a32SetRegister, [.imm .u32 1, .instRef 0]⟩] = true
    ∧ a32ConstantMemoryReads
        ⟨fun _ => true, fun _ => 0, fun _ => 0,
          fun a => if a = 0x1008 then 0xDEADBEEF else 0, fun _ => 0⟩
        (a32ConstantMemoryReads
          ⟨fun _ => true, fun _ => 0, fun _ => 0,
            fun a => if a = 0x1008 then 0xDEADBEEF else 0, fun _ => 0⟩
          [⟨.a32ReadMemory32, [.imm .u32 0x1008]⟩,
           ⟨.a32SetRegister, [.imm .u32 1, .instRef 0]⟩])
      = a32ConstantMemoryReads
          ⟨fun _ => true, fun _ => 0, fun _ => 0,
            fun a => if a = 0x1008 then 0xDEADBEEF else 0, fun _ => 0⟩
          [⟨.a32ReadMemory32, [.imm .u32 0x1008]⟩,
           ⟨.a32SetRegister, [.imm .u32 1, .instRef 0]⟩] :=
  ⟨by decide, constant_memory_reads_idempotent
    ⟨fun _ => true, fun _ => 0, fun _ => 0,
      fun a => if a = 0x1008 then 0xDEADBEEF else 0, fun _ => 0⟩
    [⟨.a32ReadMemory32, [.imm .u32 0x1008]⟩,
     ⟨.a32SetRegister, [.imm .u32 1, .instRef 0]⟩] (by decide)⟩
